import Mathlib

/-!
# Verification of the Voice-Notes-Assistant audio codec and orchestration layer

This development embeds, as Lean functions, the core algorithms of the
repository:

* `src/utils/audioUtils.ts` — WAV PCM16 encoding (`encodeWav`), parsing
  (`parseWavPcm16`), PCM-to-float conversion (`pcm16ToFloat32`) and
  byte-budgeted splitting (`splitAudioBuffer`);
* `src/summary/SummaryService.ts` — transcript chunking
  (`splitTranscription` and friends), hierarchical summarization
  (`summarizeHierarchically`), the chunk-size resolver
  (`resolveChunkCharLimit`) and the prompt builders;
* `src/main.ts` — the single-flight task maps guarding
  `transcribeAudioFile` / `summarizeAudioFile`, the never-rejecting task
  runners, and `batchProcessRecordings`.

Byte buffers are `List ℕ` with every entry `< 256`; JavaScript numbers that
hold audio samples are modelled as exact rationals (`ℚ`): all the arithmetic
performed by the code on these values (`x / 0x8000`, `x * 0x7fff`,
`Math.round`) is exact in IEEE double precision for the magnitudes involved,
so `ℚ` is a faithful carrier.  Fallible functions return `Except String`,
carrying the exact message thrown by the source.
-/

namespace VoiceNotes

/-! ## Byte-level primitives (DataView semantics)

`setUint16`/`setUint32` store a number little-endian modulo 2^16 / 2^32;
`setInt16` stores the two's complement (i.e. the value modulo 2^16) of a
signed 16-bit integer.  Reads model `DataView.getUint8` on a backing store
whose cells are always `< 256`; out-of-range indices read as 0 (the claims
below only ever exercise in-bounds reads, where this agrees with the
source, which would throw instead). -/

/-- Little-endian bytes of `setUint16`. -/
def u16le (n : ℕ) : List ℕ := [n % 256, n / 256 % 256]

/-- Little-endian bytes of `setUint32`. -/
def u32le (n : ℕ) : List ℕ :=
  [n % 256, n / 256 % 256, n / 2 ^ 16 % 256, n / 2 ^ 24 % 256]

/-- Little-endian bytes of `setInt16` (two's complement of the low 16 bits). -/
def int16LE (v : ℤ) : List ℕ :=
  [((v % 65536).toNat) % 256, ((v % 65536).toNat) / 256]

/-- `DataView.getUint8` on a byte list (0 when out of range). -/
def byteAt (bytes : List ℕ) (i : ℕ) : ℕ := bytes.getD i 0

/-- `DataView.getUint16(i, true)`. -/
def readU16 (bytes : List ℕ) (i : ℕ) : ℕ :=
  byteAt bytes i + 256 * byteAt bytes (i + 1)

/-- `DataView.getUint32(i, true)`. -/
def readU32 (bytes : List ℕ) (i : ℕ) : ℕ :=
  byteAt bytes i + 256 * byteAt bytes (i + 1) + 2 ^ 16 * byteAt bytes (i + 2)
    + 2 ^ 24 * byteAt bytes (i + 3)

/-- `DataView.getInt16(·, true)` from two already-read bytes: the unsigned
value is reinterpreted as a signed 16-bit integer.  The `% 256` records that
a `Uint8Array` backing store only ever holds bytes. -/
def toInt16 (b0 b1 : ℕ) : ℤ :=
  if b0 % 256 + 256 * (b1 % 256) < 32768 then ((b0 % 256 + 256 * (b1 % 256) : ℕ) : ℤ)
  else ((b0 % 256 + 256 * (b1 % 256) : ℕ) : ℤ) - 65536

/-- `readString(view, i, 4)` modelled as the list of the four byte values. -/
def chunkIdAt (bytes : List ℕ) (i : ℕ) : List ℕ :=
  [byteAt bytes i, byteAt bytes (i + 1), byteAt bytes (i + 2), byteAt bytes (i + 3)]

/-! ## `encodeWav` (audioUtils.ts lines 4–36) -/

/-- JavaScript `Math.round`: round half toward positive infinity.  For the
exactly-representable dyadic values produced by `encodeWav` this is exactly
`⌊x + 1/2⌋`. -/
def jsRound (x : ℚ) : ℤ := ⌊x + 1 / 2⌋

/-- `Math.max(-1, Math.min(1, sample))`. -/
def clampSample (s : ℚ) : ℚ := max (-1) (min 1 s)

/-- One loop iteration of `encodeWav`: clamp, scale asymmetrically
(negatives by 0x8000, non-negatives by 0x7fff) and round. -/
def quantize (s : ℚ) : ℤ :=
  if clampSample s < 0 then jsRound (clampSample s * 32768)
  else jsRound (clampSample s * 32767)

/-- The PCM body written by the sample loop of `encodeWav`. -/
def pcmEncode (samples : List ℚ) : List ℕ :=
  samples.flatMap (fun s => int16LE (quantize s))

/-- The 44 header bytes written by `encodeWav` before the sample loop:
RIFF magic, riff size, WAVE magic, `fmt ` subchunk (PCM tag 1, one channel,
`byteRate = sampleRate * blockAlign`, `blockAlign = 2`, 16 bits) and the
`data` subchunk id and size. -/
def wavHeader (sampleRate dataSize : ℕ) : List ℕ :=
  [82, 73, 70, 70] ++ u32le (36 + dataSize) ++ [87, 65, 86, 69]
    ++ [102, 109, 116, 32] ++ u32le 16 ++ u16le 1 ++ u16le 1
    ++ u32le sampleRate ++ u32le (sampleRate * 2) ++ u16le 2 ++ u16le 16
    ++ [100, 97, 116, 97] ++ u32le dataSize

/-- `encodeWav(samples, sampleRate)`: 44-byte canonical header followed by
the quantized little-endian PCM16 samples; `dataSize = samples.length * 2`
exactly as in the source. -/
def encodeWav (samples : List ℚ) (sampleRate : ℕ) : List ℕ :=
  wavHeader sampleRate (samples.length * 2) ++ pcmEncode samples

/-! ## `pcm16ToFloat32` (audioUtils.ts lines 135–146) -/

/-- The signed 16-bit values read two bytes at a time
(`sampleCount = floor(length / 2)`: a trailing odd byte is ignored). -/
def pcmInt16 : List ℕ → List ℤ
  | b0 :: b1 :: rest => toInt16 b0 b1 :: pcmInt16 rest
  | _ => []

/-- `pcm16ToFloat32`: each signed 16-bit sample divided by 0x8000. -/
def pcm16ToFloat32 (pcmData : List ℕ) : List ℚ :=
  (pcmInt16 pcmData).map (fun v : ℤ => (v : ℚ) / 32768)

/-! ## `parseWavPcm16` (audioUtils.ts lines 155–203) -/

/-- Result record of `parseWavPcm16`. -/
structure ParsedWavPcm16 where
  sampleRate : ℕ
  numChannels : ℕ
  bitsPerSample : ℕ
  pcmData : List ℕ
  deriving Repr, DecidableEq

/-- The chunk-walking `while` loop of `parseWavPcm16`, with an explicit fuel
argument so that the definition is structurally recursive and kernel
computable.  Each iteration requires `offset + 8 ≤ bytes.length` and
advances `offset` by at least 8, so the loop runs at most
`bytes.length / 8` times and the fuel `bytes.length` passed by
`parseWavPcm16` is never exhausted: the `fuel = 0` branch is unreachable
and the function agrees with the source loop on every input. -/
def parseLoop (bytes : List ℕ) :
    ℕ → ℕ → ℕ → ℕ → ℕ → Option (List ℕ) → ℕ × ℕ × ℕ × Option (List ℕ)
  | 0, _, sr, nc, bps, pcm => (sr, nc, bps, pcm)
  | fuel + 1, offset, sr, nc, bps, pcm =>
    if offset + 8 ≤ bytes.length then
      let chunkSize := readU32 bytes (offset + 4)
      let chunkDataStart := offset + 8
      let chunkDataEnd := chunkDataStart + chunkSize
      if bytes.length < chunkDataEnd then (sr, nc, bps, pcm)
      else if chunkIdAt bytes offset = [102, 109, 116, 32] then
        parseLoop bytes fuel (chunkDataEnd + chunkSize % 2)
          (readU32 bytes (chunkDataStart + 4)) (readU16 bytes (chunkDataStart + 2))
          (readU16 bytes (chunkDataStart + 14)) pcm
      else if chunkIdAt bytes offset = [100, 97, 116, 97] then
        parseLoop bytes fuel (chunkDataEnd + chunkSize % 2) sr nc bps
          (some ((bytes.drop chunkDataStart).take chunkSize))
      else
        parseLoop bytes fuel (chunkDataEnd + chunkSize % 2) sr nc bps pcm
    else (sr, nc, bps, pcm)

/-- `parseWavPcm16(audioBuffer)`: verify the RIFF/WAVE magic, walk the
chunks, and require a non-null data chunk, truthy format fields, 16 bits
per sample and exactly one channel. -/
def parseWavPcm16 (audioBuffer : List ℕ) : Except String ParsedWavPcm16 :=
  if chunkIdAt audioBuffer 0 = [82, 73, 70, 70]
      ∧ chunkIdAt audioBuffer 8 = [87, 65, 86, 69] then
    match parseLoop audioBuffer audioBuffer.length 12 0 0 0 none with
    | (sr, nc, bps, some pcm) =>
      if sr = 0 ∨ nc = 0 ∨ bps = 0 then Except.error "无法解析 WAV 文件"
      else if ¬(bps = 16 ∧ nc = 1) then Except.error "当前仅支持 16-bit 单声道 WAV 分片"
      else Except.ok ⟨sr, nc, bps, pcm⟩
    | (_, _, _, none) => Except.error "无法解析 WAV 文件"
  else Except.error "splitAudioBuffer 仅支持 WAV 输入"

/-! ## `splitAudioBuffer` (audioUtils.ts lines 72–98) -/

/-- The slicing `while` loop of `splitAudioBuffer`, again with fuel for
kernel computability.  Each iteration consumes `maxData ≥ 1` bytes of the
PCM data, so the fuel `pcm.length` passed by `splitAudioBuffer` is never
exhausted there (`splitAudioBuffer` always computes `maxData ≥ 2`; the
source loop would not terminate for `maxData = 0`, which cannot occur). -/
def sliceLoop : ℕ → List ℕ → ℕ → List (List ℕ)
  | 0, _, _ => []
  | _, [], _ => []
  | fuel + 1, b :: rest, maxData =>
    (b :: rest).take maxData :: sliceLoop fuel ((b :: rest).drop maxData) maxData

/-- `splitAudioBuffer(audioBuffer, maxBytes)`: reject budgets that cannot
even hold a header, pass small buffers through unchanged, otherwise parse,
compute the frame-aligned per-chunk data budget and re-encode every PCM
slice through the float round-trip. -/
def splitAudioBuffer (audioBuffer : List ℕ) (maxBytes : ℕ) :
    Except String (List (List ℕ)) :=
  if maxBytes ≤ 44 then Except.error "maxBytes 必须大于 44 字节"
  else if audioBuffer.length ≤ maxBytes then Except.ok [audioBuffer]
  else
    match parseWavPcm16 audioBuffer with
    | Except.error e => Except.error e
    | Except.ok wavInfo =>
      let bytesPerSample := wavInfo.bitsPerSample / 8
      let frameBytes := bytesPerSample * wavInfo.numChannels
      let maxDataBytes := max frameBytes ((maxBytes - 44) / frameBytes * frameBytes)
      Except.ok ((sliceLoop wavInfo.pcmData.length wavInfo.pcmData maxDataBytes).map
        (fun pcmSlice => encodeWav (pcm16ToFloat32 pcmSlice) wavInfo.sampleRate))

/-! ## Basic facts about the codec embedding -/

theorem int16LE_length (v : ℤ) : (int16LE v).length = 2 := rfl

theorem pcmEncode_length (samples : List ℚ) :
    (pcmEncode samples).length = 2 * samples.length := by
  induction samples with
  | nil => rfl
  | cons s rest ih =>
    simp only [pcmEncode, List.flatMap_cons] at *
    simp [List.length_append, ih, int16LE_length]
    omega

theorem wavHeader_length (sampleRate dataSize : ℕ) :
    (wavHeader sampleRate dataSize).length = 44 := rfl

theorem encodeWav_length (samples : List ℚ) (sampleRate : ℕ) :
    (encodeWav samples sampleRate).length = 44 + 2 * samples.length := by
  simp [encodeWav, List.length_append, wavHeader_length, pcmEncode_length]

theorem encodeWav_drop_44 (samples : List ℚ) (sampleRate : ℕ) :
    (encodeWav samples sampleRate).drop 44 = pcmEncode samples := by
  have h := List.drop_left (wavHeader sampleRate (samples.length * 2)) (pcmEncode samples)
  rwa [wavHeader_length] at h

theorem u32_decomp (n : ℕ) (h : n < 2 ^ 32) :
    n % 256 + 256 * (n / 256 % 256) + 2 ^ 16 * (n / 2 ^ 16 % 256)
      + 2 ^ 24 * (n / 2 ^ 24 % 256) = n := by omega

/-- The header flattened to a plain list of its 44 bytes. -/
theorem wavHeader_eq (sampleRate dataSize : ℕ) :
    wavHeader sampleRate dataSize =
      [82, 73, 70, 70,
        (36 + dataSize) % 256, (36 + dataSize) / 256 % 256,
        (36 + dataSize) / 2 ^ 16 % 256, (36 + dataSize) / 2 ^ 24 % 256,
        87, 65, 86, 69, 102, 109, 116, 32, 16, 0, 0, 0, 1, 0, 1, 0,
        sampleRate % 256, sampleRate / 256 % 256,
        sampleRate / 2 ^ 16 % 256, sampleRate / 2 ^ 24 % 256,
        sampleRate * 2 % 256, sampleRate * 2 / 256 % 256,
        sampleRate * 2 / 2 ^ 16 % 256, sampleRate * 2 / 2 ^ 24 % 256,
        2, 0, 16, 0, 100, 97, 116, 97,
        dataSize % 256, dataSize / 256 % 256,
        dataSize / 2 ^ 16 % 256, dataSize / 2 ^ 24 % 256] := by
  norm_num [wavHeader, u32le, u16le]

theorem byteAt_encodeWav (samples : List ℚ) (sampleRate i : ℕ) (h : i < 44) :
    byteAt (encodeWav samples sampleRate) i
      = byteAt (wavHeader sampleRate (samples.length * 2)) i := by
  unfold encodeWav byteAt
  exact List.getD_append _ _ _ _ (by rw [wavHeader_length]; omega)

theorem readU16_encodeWav (samples : List ℚ) (sampleRate i : ℕ) (h : i + 1 < 44) :
    readU16 (encodeWav samples sampleRate) i
      = readU16 (wavHeader sampleRate (samples.length * 2)) i := by
  unfold readU16
  rw [byteAt_encodeWav _ _ _ (by omega), byteAt_encodeWav _ _ _ (by omega)]

theorem readU32_encodeWav (samples : List ℚ) (sampleRate i : ℕ) (h : i + 3 < 44) :
    readU32 (encodeWav samples sampleRate) i
      = readU32 (wavHeader sampleRate (samples.length * 2)) i := by
  unfold readU32
  rw [byteAt_encodeWav _ _ _ (by omega), byteAt_encodeWav _ _ _ (by omega),
    byteAt_encodeWav _ _ _ (by omega), byteAt_encodeWav _ _ _ (by omega)]

theorem chunkIdAt_encodeWav (samples : List ℚ) (sampleRate i : ℕ) (h : i + 3 < 44) :
    chunkIdAt (encodeWav samples sampleRate) i
      = chunkIdAt (wavHeader sampleRate (samples.length * 2)) i := by
  unfold chunkIdAt
  rw [byteAt_encodeWav _ _ _ (by omega), byteAt_encodeWav _ _ _ (by omega),
    byteAt_encodeWav _ _ _ (by omega), byteAt_encodeWav _ _ _ (by omega)]

theorem quantize_mem_range (s : ℚ) : -32768 ≤ quantize s ∧ quantize s ≤ 32767 := by
  have hlo : (-1 : ℚ) ≤ clampSample s := le_max_left _ _
  have hhi : clampSample s ≤ 1 := max_le (by norm_num) (min_le_left _ _)
  unfold quantize jsRound
  split
  case isTrue hneg =>
    constructor
    · rw [show (-32768 : ℤ) = ⌊(-32768 : ℚ) + 1 / 2⌋ by norm_num]
      exact Int.floor_le_floor (by nlinarith)
    · calc ⌊clampSample s * 32768 + 1 / 2⌋ ≤ ⌊(0 : ℚ) + 1 / 2⌋ :=
            Int.floor_le_floor (by nlinarith)
        _ ≤ 32767 := by norm_num
  case isFalse hpos =>
    push_neg at hpos
    constructor
    · calc (-32768 : ℤ) ≤ ⌊(0 : ℚ) + 1 / 2⌋ := by norm_num
        _ ≤ ⌊clampSample s * 32767 + 1 / 2⌋ := Int.floor_le_floor (by nlinarith)
    · calc ⌊clampSample s * 32767 + 1 / 2⌋ ≤ ⌊(32767 : ℚ) + 1 / 2⌋ :=
            Int.floor_le_floor (by nlinarith)
        _ = 32767 := by norm_num

/-- Re-quantizing the float decoding of a stored 16-bit sample: negative and
small non-negative samples survive unchanged, while samples above 16384 lose
exactly one quantization step (the decoder divides by 0x8000 but the encoder
multiplies non-negatives by 0x7fff). -/
theorem quantize_div_32768 (v : ℤ) (h1 : -32768 ≤ v) (h2 : v < 32768) :
    quantize ((v : ℚ) / 32768) = if v < 0 then v else if v ≤ 16384 then v else v - 1 := by
  have h32 : (0 : ℚ) < 32768 := by norm_num
  have hclamp : clampSample ((v : ℚ) / 32768) = (v : ℚ) / 32768 := by
    unfold clampSample
    rw [min_eq_right, max_eq_right]
    · rw [le_div_iff₀ h32]
      norm_num
      exact_mod_cast h1
    · rw [div_le_one h32]
      exact_mod_cast h2.le
  unfold quantize jsRound
  rw [hclamp]
  rcases lt_trichotomy v 0 with hv | hv | hv
  · rw [if_pos, if_pos hv]
    · rw [div_mul_cancel₀ _ (ne_of_gt h32), Int.floor_int_add]
      norm_num
    · exact div_neg_of_neg_of_pos (by exact_mod_cast hv) h32
  · subst hv
    norm_num
  · rw [if_neg, if_neg (by omega : ¬ v < 0)]
    · have hx : (v : ℚ) / 32768 * 32767 + 1 / 2 = ((2 * 32767 * v + 32768 : ℤ) : ℚ) / ((65536 : ℕ) : ℚ) := by
        push_cast
        ring
      rw [hx, Rat.floor_intCast_div_natCast]
      split
      case isTrue h => omega
      case isFalse h => omega
    · push_neg
      positivity

theorem quantize_intCast_div_le (v : ℤ) (h1 : -32768 ≤ v) (h2 : v < 32768) :
    v - 1 ≤ quantize ((v : ℚ) / 32768) ∧ quantize ((v : ℚ) / 32768) ≤ v := by
  rw [quantize_div_32768 v h1 h2]
  split <;> [omega; skip]
  split <;> omega

theorem toInt16_int16LE (v : ℤ) (h1 : -32768 ≤ v) (h2 : v < 32768) :
    toInt16 ((v % 65536).toNat % 256) ((v % 65536).toNat / 256) = v := by
  unfold toInt16
  split <;> omega

theorem toInt16_mem_range (b0 b1 : ℕ) : -32768 ≤ toInt16 b0 b1 ∧ toInt16 b0 b1 < 32768 := by
  unfold toInt16
  split <;> omega

theorem pcmInt16_cons_cons (b0 b1 : ℕ) (rest : List ℕ) :
    pcmInt16 (b0 :: b1 :: rest) = toInt16 b0 b1 :: pcmInt16 rest := rfl

theorem pcmInt16_int16LE_append (v : ℤ) (rest : List ℕ) :
    pcmInt16 (int16LE v ++ rest)
      = toInt16 ((v % 65536).toNat % 256) ((v % 65536).toNat / 256) :: pcmInt16 rest := rfl

theorem pcmInt16_flatMap_int16LE (vs : List ℤ) (h : ∀ v ∈ vs, -32768 ≤ v ∧ v < 32768) :
    pcmInt16 (vs.flatMap int16LE) = vs := by
  induction vs with
  | nil => rfl
  | cons v rest ih =>
    have hv := h v (List.mem_cons_self v rest)
    rw [List.flatMap_cons, pcmInt16_int16LE_append, toInt16_int16LE v hv.1 hv.2,
      ih (fun w hw => h w (List.mem_cons_of_mem v hw))]

theorem pcmInt16_mem_range :
    ∀ (bytes : List ℕ) (v : ℤ), v ∈ pcmInt16 bytes → -32768 ≤ v ∧ v < 32768
  | [], v, hv => by
    rw [show pcmInt16 [] = [] from rfl] at hv
    exact absurd hv (List.not_mem_nil v)
  | [b], v, hv => by
    rw [show pcmInt16 [b] = [] from rfl] at hv
    exact absurd hv (List.not_mem_nil v)
  | b0 :: b1 :: rest, v, hv => by
    rw [pcmInt16_cons_cons] at hv
    rcases List.mem_cons.mp hv with h | h
    · subst h
      exact toInt16_mem_range b0 b1
    · exact pcmInt16_mem_range rest v h

theorem pcmInt16_length : ∀ bytes : List ℕ, (pcmInt16 bytes).length = bytes.length / 2
  | [] => rfl
  | [b] => by
    rw [show pcmInt16 [b] = [] from rfl]
    simp
  | b0 :: b1 :: rest => by
    rw [pcmInt16_cons_cons]
    simp only [List.length_cons, pcmInt16_length rest]
    omega

theorem pcmEncode_eq_flatMap (samples : List ℚ) :
    pcmEncode samples = (samples.map quantize).flatMap int16LE := by
  induction samples with
  | nil => rfl
  | cons s rest ih =>
    simp only [pcmEncode, List.flatMap_cons, List.map_cons] at *
    rw [ih]

theorem pcmInt16_pcmEncode (samples : List ℚ) :
    pcmInt16 (pcmEncode samples) = samples.map quantize := by
  rw [pcmEncode_eq_flatMap, pcmInt16_flatMap_int16LE]
  intro v hv
  rcases List.mem_map.mp hv with ⟨s, _, rfl⟩
  exact ⟨(quantize_mem_range s).1, by have := (quantize_mem_range s).2; omega⟩

/-! ## Characterization of `parseWavPcm16` on canonically encoded buffers -/

theorem parseLoop_stop (bytes : List ℕ) (fuel offset sr nc bps : ℕ)
    (pcm : Option (List ℕ)) (h : bytes.length < offset + 8) :
    parseLoop bytes fuel offset sr nc bps pcm = (sr, nc, bps, pcm) := by
  cases fuel with
  | zero => rfl
  | succ f =>
    simp only [parseLoop]
    rw [if_neg (by omega)]

theorem parseWavPcm16_encodeWav (samples : List ℚ) (sr : ℕ)
    (h1 : 0 < sr) (h2 : sr < 2 ^ 32) (h3 : samples.length * 2 < 2 ^ 32) :
    parseWavPcm16 (encodeWav samples sr) = Except.ok ⟨sr, 1, 16, pcmEncode samples⟩ := by
  have hlen : (encodeWav samples sr).length = 44 + 2 * samples.length :=
    encodeWav_length samples sr
  -- The two magic strings at offsets 0 and 8.
  have hriff : chunkIdAt (encodeWav samples sr) 0 = [82, 73, 70, 70] := by
    rw [chunkIdAt_encodeWav _ _ _ (by omega), wavHeader_eq]
    rfl
  have hwave : chunkIdAt (encodeWav samples sr) 8 = [87, 65, 86, 69] := by
    rw [chunkIdAt_encodeWav _ _ _ (by omega), wavHeader_eq]
    rfl
  -- First loop iteration: the `fmt ` chunk at offset 12.
  have hfmtid : chunkIdAt (encodeWav samples sr) 12 = [102, 109, 116, 32] := by
    rw [chunkIdAt_encodeWav _ _ _ (by omega), wavHeader_eq]
    rfl
  have hfmtsize : readU32 (encodeWav samples sr) 16 = 16 := by
    rw [readU32_encodeWav _ _ _ (by omega), wavHeader_eq]
    rfl
  have hch : readU16 (encodeWav samples sr) 22 = 1 := by
    rw [readU16_encodeWav _ _ _ (by omega), wavHeader_eq]
    rfl
  have hsr : readU32 (encodeWav samples sr) 24 = sr := by
    rw [readU32_encodeWav _ _ _ (by omega), wavHeader_eq]
    refine Eq.trans ?_ (u32_decomp sr h2)
    rfl
  have hbits : readU16 (encodeWav samples sr) 34 = 16 := by
    rw [readU16_encodeWav _ _ _ (by omega), wavHeader_eq]
    rfl
  -- Second loop iteration: the `data` chunk at offset 36.
  have hdataid : chunkIdAt (encodeWav samples sr) 36 = [100, 97, 116, 97] := by
    rw [chunkIdAt_encodeWav _ _ _ (by omega), wavHeader_eq]
    rfl
  have hdsize : readU32 (encodeWav samples sr) 40 = samples.length * 2 := by
    rw [readU32_encodeWav _ _ _ (by omega), wavHeader_eq]
    refine Eq.trans ?_ (u32_decomp (samples.length * 2) (by omega))
    rfl
  have hextract : ((encodeWav samples sr).drop 44).take (samples.length * 2)
      = pcmEncode samples := by
    rw [encodeWav_drop_44]
    exact List.take_of_length_le (by rw [pcmEncode_length]; omega)
  -- Run the loop: with fuel `44 + 2n` it performs exactly two iterations.
  have hloop : ∀ fuel, 2 ≤ fuel →
      parseLoop (encodeWav samples sr) fuel 12 0 0 0 none
        = (sr, 1, 16, some (pcmEncode samples)) := by
    intro fuel hfuel
    obtain ⟨f, rfl⟩ : ∃ f, fuel = f + 1 + 1 := ⟨fuel - 2, by omega⟩
    rw [show parseLoop (encodeWav samples sr) (f + 1 + 1) 12 0 0 0 none
          = parseLoop (encodeWav samples sr) (f + 1) 36 sr 1 16 none by
        simp only [parseLoop]
        rw [hfmtsize, hfmtid, hlen, if_pos (by omega), if_neg (by omega), if_pos rfl,
          hsr, hch, hbits]]
    rw [show parseLoop (encodeWav samples sr) (f + 1) 36 sr 1 16 none
          = parseLoop (encodeWav samples sr) f (36 + 8 + samples.length * 2
              + samples.length * 2 % 2) sr 1 16 (some (pcmEncode samples)) by
        simp only [parseLoop]
        rw [hdsize, hdataid, hlen, if_pos (by omega), if_neg (by omega),
          if_neg (by decide), if_pos rfl, hextract]]
    exact parseLoop_stop _ _ _ _ _ _ _ (by omega)
  unfold parseWavPcm16
  rw [if_pos ⟨hriff, hwave⟩, hlen, hloop (44 + 2 * samples.length) (by omega)]
  simp [h1.ne']

/-! ## The slicing loop and the decode/re-encode round trip -/

/-- The per-sample effect of cutting a stored 16-bit sample out of a WAV
buffer and re-encoding it through `pcm16ToFloat32`/`encodeWav`. -/
def requantize (v : ℤ) : ℤ := quantize ((v : ℚ) / 32768)

theorem requantize_eq (v : ℤ) (h1 : -32768 ≤ v) (h2 : v < 32768) :
    requantize v = if v < 0 then v else if v ≤ 16384 then v else v - 1 :=
  quantize_div_32768 v h1 h2

theorem requantize_bounds (v : ℤ) (h1 : -32768 ≤ v) (h2 : v < 32768) :
    v - 1 ≤ requantize v ∧ requantize v ≤ v :=
  quantize_intCast_div_le v h1 h2

/-- The data section of one re-encoded chunk decodes to the requantized
samples of the slice it came from. -/
theorem chunk_payload_decode (s : List ℕ) (sr : ℕ) :
    pcmInt16 ((encodeWav (pcm16ToFloat32 s) sr).drop 44)
      = (pcmInt16 s).map requantize := by
  rw [encodeWav_drop_44, pcmInt16_pcmEncode]
  show ((pcmInt16 s).map (fun v : ℤ => (v : ℚ) / 32768)).map quantize
      = (pcmInt16 s).map requantize
  rw [List.map_map]
  rfl

theorem sliceLoop_nil (fuel maxData : ℕ) : sliceLoop fuel [] maxData = [] := by
  cases fuel <;> rfl

theorem sliceLoop_zero (pcm : List ℕ) (maxData : ℕ) : sliceLoop 0 pcm maxData = [] := by
  cases pcm <;> rfl

theorem sliceLoop_mem_length (fuel : ℕ) :
    ∀ (pcm : List ℕ) (maxData : ℕ) (c : List ℕ),
      c ∈ sliceLoop fuel pcm maxData → c.length ≤ maxData := by
  induction fuel with
  | zero =>
    intro pcm maxData c hc
    rw [sliceLoop_zero] at hc
    exact absurd hc (List.not_mem_nil c)
  | succ fuel ih =>
    intro pcm maxData c hc
    match pcm with
    | [] =>
      rw [sliceLoop_nil] at hc
      exact absurd hc (List.not_mem_nil c)
    | b :: rest =>
      rcases List.mem_cons.mp hc with h | h
      · subst h
        exact List.length_take_le maxData (b :: rest)
      · exact ih _ _ _ h

theorem flatMap_int16LE_take (vs : List ℤ) :
    ∀ k : ℕ, (vs.flatMap int16LE).take (2 * k) = (vs.take k).flatMap int16LE := by
  induction vs with
  | nil => simp
  | cons v rest ih =>
    intro k
    cases k with
    | zero => simp
    | succ k =>
      rw [show 2 * (k + 1) = 2 * k + 1 + 1 by ring]
      simp only [List.flatMap_cons, int16LE, List.cons_append, List.nil_append,
        List.take_succ_cons]
      rw [ih k]

theorem flatMap_int16LE_drop (vs : List ℤ) :
    ∀ k : ℕ, (vs.flatMap int16LE).drop (2 * k) = (vs.drop k).flatMap int16LE := by
  induction vs with
  | nil => simp
  | cons v rest ih =>
    intro k
    cases k with
    | zero => simp
    | succ k =>
      rw [show 2 * (k + 1) = 2 * k + 1 + 1 by ring]
      simp only [List.flatMap_cons, int16LE, List.cons_append, List.nil_append,
        List.drop_succ_cons]
      exact ih k

theorem flatMap_int16LE_length (vs : List ℤ) :
    (vs.flatMap int16LE).length = 2 * vs.length := by
  induction vs with
  | nil => rfl
  | cons v rest ih =>
    simp only [List.flatMap_cons, List.length_append, int16LE_length, ih, List.length_cons]
    omega

/-- Cutting the encoded form of `vs` into frame-aligned slices and decoding
every slice yields exactly `vs`: the slicing loop loses no sample and
respects sample boundaries. -/
theorem sliceLoop_decode_flatten (k : ℕ) (hk : 1 ≤ k) :
    ∀ (n : ℕ) (vs : List ℤ), vs.length ≤ n →
      (∀ v ∈ vs, -32768 ≤ v ∧ v < 32768) →
      ∀ fuel, (vs.flatMap int16LE).length ≤ fuel →
      ((sliceLoop fuel (vs.flatMap int16LE) (2 * k)).map pcmInt16).flatten = vs := by
  intro n
  induction n with
  | zero =>
    intro vs hvs _ fuel _
    have hnil : vs = [] := List.length_eq_zero.mp (by omega)
    subst hnil
    rw [List.flatMap_nil, sliceLoop_nil]
    rfl
  | succ n ih =>
    intro vs hvs hrange fuel hfuel
    match vs with
    | [] =>
      rw [List.flatMap_nil, sliceLoop_nil]
      rfl
    | v :: rest =>
      have hlenB : ((v :: rest).flatMap int16LE).length = 2 * (rest.length + 1) := by
        rw [flatMap_int16LE_length]
        simp
      obtain ⟨f, rfl⟩ : ∃ f, fuel = f + 1 := ⟨fuel - 1, by omega⟩
      have hcons : (v :: rest).flatMap int16LE
          = ((v % 65536).toNat % 256) :: ((v % 65536).toNat / 256)
              :: rest.flatMap int16LE := rfl
      rw [hcons]
      simp only [sliceLoop]
      rw [← hcons, flatMap_int16LE_take, flatMap_int16LE_drop, List.map_cons,
        List.flatten_cons]
      have hvs' : rest.length + 1 ≤ n + 1 := by simpa using hvs
      have hf : 2 * (rest.length + 1) ≤ f + 1 := hlenB ▸ hfuel
      rw [pcmInt16_flatMap_int16LE _ (fun w hw => hrange w (List.mem_of_mem_take hw)),
        ih ((v :: rest).drop k)
          (by simp only [List.length_drop, List.length_cons]; omega)
          (fun w hw => hrange w (List.mem_of_mem_drop hw)) f
          (by rw [flatMap_int16LE_length, List.length_drop]
              simp only [List.length_cons]
              omega)]
      exact List.take_append_drop k (v :: rest)

/-- Decoding distributes over concatenation when the first block has even
length (no sample straddles the boundary). -/
theorem pcmInt16_append_even :
    ∀ (A : List ℕ), A.length % 2 = 0 → ∀ B : List ℕ,
      pcmInt16 (A ++ B) = pcmInt16 A ++ pcmInt16 B
  | [], _, B => by rfl
  | [_], h, B => by simp at h
  | b0 :: b1 :: rest, h, B => by
    rw [List.cons_append, List.cons_append, pcmInt16_cons_cons, pcmInt16_cons_cons,
      pcmInt16_append_even rest (by simp only [List.length_cons] at h; omega) B,
      List.cons_append]

theorem pcmInt16_flatten (L : List (List ℕ)) (h : ∀ A ∈ L, A.length % 2 = 0) :
    pcmInt16 L.flatten = (L.map pcmInt16).flatten := by
  induction L with
  | nil => rfl
  | cons A rest ih =>
    rw [List.flatten_cons, pcmInt16_append_even A (h A (List.mem_cons_self A rest)),
      List.map_cons, List.flatten_cons, ih (fun X hX => h X (List.mem_cons_of_mem A hX))]

set_option maxHeartbeats 1600000 in
/-- Concatenated data sections of all re-encoded chunks decode to the
requantization of the original samples, in order. -/
theorem sliceLoop_reencode_flatten (vs : List ℤ) (k sr : ℕ) (hk : 1 ≤ k)
    (hrange : ∀ v ∈ vs, -32768 ≤ v ∧ v < 32768)
    (fuel : ℕ) (hfuel : (vs.flatMap int16LE).length ≤ fuel) :
    pcmInt16 (((sliceLoop fuel (vs.flatMap int16LE) (2 * k)).map
        (fun s => (encodeWav (pcm16ToFloat32 s) sr).drop 44)).flatten)
      = vs.map requantize := by
  have heven : ∀ A ∈ (sliceLoop fuel (vs.flatMap int16LE) (2 * k)).map
      (fun s => (encodeWav (pcm16ToFloat32 s) sr).drop 44), A.length % 2 = 0 := by
    intro A hA
    rcases List.mem_map.mp hA with ⟨s, _, rfl⟩
    rw [encodeWav_drop_44, pcmEncode_length]
    omega
  rw [pcmInt16_flatten _ heven, List.map_map]
  have hfn : (pcmInt16 ∘ fun s => (encodeWav (pcm16ToFloat32 s) sr).drop 44)
      = (List.map requantize ∘ pcmInt16) :=
    funext (fun s => chunk_payload_decode s sr)
  rw [hfn, ← List.map_map, ← List.map_flatten,
    sliceLoop_decode_flatten k hk vs.length vs le_rfl hrange fuel hfuel]

/-- The PCM data payload of a canonical 44-byte-header WAV buffer: the bytes
after the header. -/
def wavPcmPayload (buffer : List ℕ) : List ℕ := buffer.drop 44

/-- `splitAudioBuffer` past its guards, for any successfully parsed input. -/
theorem splitAudioBuffer_ok_case (buffer : List ℕ) (maxBytes : ℕ) (info : ParsedWavPcm16)
    (h44 : ¬ maxBytes ≤ 44) (hlen : ¬ buffer.length ≤ maxBytes)
    (hparse : parseWavPcm16 buffer = Except.ok info) :
    splitAudioBuffer buffer maxBytes
      = Except.ok ((sliceLoop info.pcmData.length info.pcmData
          (max (info.bitsPerSample / 8 * info.numChannels)
            ((maxBytes - 44) / (info.bitsPerSample / 8 * info.numChannels)
              * (info.bitsPerSample / 8 * info.numChannels)))).map
            (fun pcmSlice => encodeWav (pcm16ToFloat32 pcmSlice) info.sampleRate)) := by
  unfold splitAudioBuffer
  rw [if_neg h44, if_neg hlen, hparse]

/-- `splitAudioBuffer` evaluated past its guards on a canonically encoded
buffer that exceeds the budget. -/
theorem splitAudioBuffer_split_eq (samples : List ℚ) (sr maxBytes : ℕ)
    (h1 : 0 < sr) (h2 : sr < 2 ^ 32) (h3 : samples.length * 2 < 2 ^ 32)
    (h44 : 44 < maxBytes) (hbig : maxBytes < (encodeWav samples sr).length) :
    splitAudioBuffer (encodeWav samples sr) maxBytes
      = Except.ok ((sliceLoop (pcmEncode samples).length (pcmEncode samples)
          (max 2 ((maxBytes - 44) / 2 * 2))).map
            (fun pcmSlice => encodeWav (pcm16ToFloat32 pcmSlice) sr)) := by
  rw [splitAudioBuffer_ok_case (encodeWav samples sr) maxBytes ⟨sr, 1, 16, pcmEncode samples⟩
    (by omega) (by omega) (parseWavPcm16_encodeWav samples sr h1 h2 h3)]
  norm_num

/-- The per-chunk data budget, written as `2 * k` with `k ≥ 1`. -/
theorem maxDataBytes_two_mul (maxBytes : ℕ) :
    ∃ k, 1 ≤ k ∧ max 2 ((maxBytes - 44) / 2 * 2) = 2 * k := by
  rcases Nat.le_total 2 ((maxBytes - 44) / 2 * 2) with h | h
  · exact ⟨(maxBytes - 44) / 2, by omega, by rw [max_eq_right h]; ring⟩
  · exact ⟨1, le_rfl, by rw [max_eq_left h]⟩

/-- C1 (amended).  Splitting a canonical mono 16-bit PCM WAV buffer and
concatenating the chunks' PCM payloads yields the same number of samples in
the same order, where every sample equals the original or the original
minus one quantization step (`orig - 1 ≤ new ≤ orig` on the signed 16-bit
values); the payload is not always reproduced byte for byte, because
re-encoding a decoded sample `v > 16384` yields `v - 1`. -/
theorem claim_C1 (samples : List ℚ) (sr maxBytes : ℕ)
    (h1 : 0 < sr) (h2 : sr < 2 ^ 32) (h3 : samples.length * 2 < 2 ^ 32)
    (h44 : 44 < maxBytes) :
    ∃ chunks, splitAudioBuffer (encodeWav samples sr) maxBytes = Except.ok chunks ∧
      (pcmInt16 ((chunks.map wavPcmPayload).flatten)).length
        = (pcmInt16 (wavPcmPayload (encodeWav samples sr))).length ∧
      ∀ i, i < (pcmInt16 (wavPcmPayload (encodeWav samples sr))).length →
        (pcmInt16 (wavPcmPayload (encodeWav samples sr))).getD i 0 - 1
            ≤ (pcmInt16 ((chunks.map wavPcmPayload).flatten)).getD i 0
          ∧ (pcmInt16 ((chunks.map wavPcmPayload).flatten)).getD i 0
            ≤ (pcmInt16 (wavPcmPayload (encodeWav samples sr))).getD i 0 := by
  by_cases hfit : (encodeWav samples sr).length ≤ maxBytes
  · refine ⟨[encodeWav samples sr], ?_, ?_, ?_⟩
    · unfold splitAudioBuffer
      rw [if_neg (by omega), if_pos hfit]
    · simp [wavPcmPayload]
    · intro i hi
      simp only [List.map_cons, List.map_nil, List.flatten_cons, List.flatten_nil,
        List.append_nil]
      omega
  · push_neg at hfit
    rw [splitAudioBuffer_split_eq samples sr maxBytes h1 h2 h3 h44 hfit]
    refine ⟨_, rfl, ?_⟩
    obtain ⟨k, hk1, hk2⟩ := maxDataBytes_two_mul maxBytes
    have hrange : ∀ v ∈ samples.map quantize, -32768 ≤ v ∧ v < 32768 := by
      intro v hv
      rcases List.mem_map.mp hv with ⟨s, _, rfl⟩
      exact ⟨(quantize_mem_range s).1, by have := (quantize_mem_range s).2; omega⟩
    have hre : pcmInt16 (((( sliceLoop (pcmEncode samples).length (pcmEncode samples)
          (max 2 ((maxBytes - 44) / 2 * 2))).map
            (fun pcmSlice => encodeWav (pcm16ToFloat32 pcmSlice) sr)).map
              wavPcmPayload).flatten)
        = (samples.map quantize).map requantize := by
      unfold wavPcmPayload
      rw [List.map_map]
      have hpe := pcmEncode_eq_flatMap samples
      rw [show (sliceLoop (pcmEncode samples).length (pcmEncode samples)
            (max 2 ((maxBytes - 44) / 2 * 2)))
          = (sliceLoop ((samples.map quantize).flatMap int16LE).length
              ((samples.map quantize).flatMap int16LE) (2 * k)) by rw [← hpe, hk2]]
      exact sliceLoop_reencode_flatten (samples.map quantize) k sr hk1 hrange _ le_rfl
    have horig : pcmInt16 (wavPcmPayload (encodeWav samples sr)) = samples.map quantize := by
      unfold wavPcmPayload
      rw [encodeWav_drop_44, pcmInt16_pcmEncode]
    rw [hre, horig]
    refine ⟨by rw [List.length_map], ?_⟩
    intro i hi
    have hi2 : i < samples.length := by simpa using hi
    rw [List.getD_eq_getElem _ _ hi, List.getD_eq_getElem _ _ (by simpa using hi)]
    simp only [List.getElem_map]
    have hq := quantize_mem_range samples[i]
    have hb := requantize_bounds (quantize samples[i]) hq.1 (by omega)
    exact ⟨by omega, hb.2⟩

/-- C1 witness: a concrete instance of the amended reassembly bound. -/
theorem claim_C1_witness :
    ∃ chunks, splitAudioBuffer (encodeWav [(0 : ℚ), 0, 0] 8000) 46 = Except.ok chunks ∧
      (pcmInt16 ((chunks.map wavPcmPayload).flatten)).length
        = (pcmInt16 (wavPcmPayload (encodeWav [(0 : ℚ), 0, 0] 8000))).length ∧
      ∀ i, i < (pcmInt16 (wavPcmPayload (encodeWav [(0 : ℚ), 0, 0] 8000))).length →
        (pcmInt16 (wavPcmPayload (encodeWav [(0 : ℚ), 0, 0] 8000))).getD i 0 - 1
            ≤ (pcmInt16 ((chunks.map wavPcmPayload).flatten)).getD i 0
          ∧ (pcmInt16 ((chunks.map wavPcmPayload).flatten)).getD i 0
            ≤ (pcmInt16 (wavPcmPayload (encodeWav [(0 : ℚ), 0, 0] 8000))).getD i 0 :=
  claim_C1 [(0 : ℚ), 0, 0] 8000 46 (by norm_num) (by norm_num) (by norm_num) (by norm_num)

/-- C1 counterexample: splitting the canonical encoding of three full-scale
samples (stored value 32767) with budget 46 re-encodes every sample as
32766 (bytes `254, 127`), so the concatenated chunk payloads differ from
the original payload byte for byte. -/
theorem claim_C1_counterexample :
    (splitAudioBuffer (encodeWav [(1 : ℚ), 1, 1] 8000) 46).map
        (fun chunks => (chunks.map wavPcmPayload).flatten)
      = Except.ok [254, 127, 254, 127, 254, 127]
    ∧ wavPcmPayload (encodeWav [(1 : ℚ), 1, 1] 8000) = [255, 127, 255, 127, 255, 127]
    ∧ ([254, 127, 254, 127, 254, 127] : List ℕ) ≠ [255, 127, 255, 127, 255, 127] := by
  have hq1 : quantize 1 = 32767 := by
    unfold quantize clampSample jsRound
    norm_num
  have hpe : pcmEncode [(1 : ℚ), 1, 1] = [255, 127, 255, 127, 255, 127] := by
    simp only [pcmEncode, List.flatMap_cons, List.flatMap_nil, hq1, int16LE,
      List.cons_append, List.nil_append, List.append_nil]
    decide
  have hpf : pcm16ToFloat32 [255, 127] = [(32767 : ℚ) / 32768] := by
    norm_num [pcm16ToFloat32, pcmInt16, toInt16]
  have hq2 : quantize ((32767 : ℚ) / 32768) = 32766 := by
    unfold quantize clampSample jsRound
    norm_num
  have hchunk : wavPcmPayload (encodeWav [(32767 : ℚ) / 32768] 8000) = [254, 127] := by
    rw [wavPcmPayload, encodeWav_drop_44]
    simp only [pcmEncode, List.flatMap_cons, List.flatMap_nil, hq2, int16LE,
      List.append_nil]
    decide
  have hsplit := splitAudioBuffer_split_eq [(1 : ℚ), 1, 1] 8000 46
    (by norm_num) (by norm_num) (by norm_num) (by norm_num)
    (by rw [encodeWav_length]; norm_num)
  rw [hpe,
    show ([255, 127, 255, 127, 255, 127] : List ℕ).length = 6 from rfl,
    show max 2 ((46 - 44) / 2 * 2) = 2 from by
      rw [show (46 - 44) / 2 * 2 = 2 from by norm_num, max_self],
    show sliceLoop 6 [255, 127, 255, 127, 255, 127] 2
        = [[255, 127], [255, 127], [255, 127]] from by decide,
    List.map_cons, List.map_cons, List.map_cons, List.map_nil, hpf] at hsplit
  refine ⟨?_, ?_, by decide⟩
  · rw [hsplit]
    simp only [Except.map, List.map_cons, List.map_nil, List.flatten_cons,
      List.flatten_nil, hchunk]
    simp
  · rw [wavPcmPayload, encodeWav_drop_44, hpe]

/-- C3 (amended).  For budgets of at least 46 bytes every chunk produced
from an oversized canonical mono 16-bit PCM WAV buffer fits in `maxBytes`;
at `maxBytes = 45` this fails (see the counterexample) because the splitter
always grants each chunk at least one whole frame. -/
theorem claim_C3 (samples : List ℚ) (sr maxBytes : ℕ)
    (h1 : 0 < sr) (h2 : sr < 2 ^ 32) (h3 : samples.length * 2 < 2 ^ 32)
    (h46 : 46 ≤ maxBytes) (hbig : maxBytes < (encodeWav samples sr).length) :
    ∃ chunks, splitAudioBuffer (encodeWav samples sr) maxBytes = Except.ok chunks ∧
      ∀ c ∈ chunks, c.length ≤ maxBytes := by
  rw [splitAudioBuffer_split_eq samples sr maxBytes h1 h2 h3 (by omega) hbig]
  refine ⟨_, rfl, ?_⟩
  intro c hc
  rcases List.mem_map.mp hc with ⟨s, hs, rfl⟩
  have hsl : s.length ≤ max 2 ((maxBytes - 44) / 2 * 2) :=
    sliceLoop_mem_length _ _ _ _ hs
  have hmax : max 2 ((maxBytes - 44) / 2 * 2) = (maxBytes - 44) / 2 * 2 :=
    max_eq_right (by omega)
  rw [encodeWav_length, pcm16ToFloat32, List.length_map, pcmInt16_length]
  omega

/-- C3 witness: splitting a 52-byte buffer with budget 46. -/
theorem claim_C3_witness :
    ∃ chunks, splitAudioBuffer (encodeWav [(0 : ℚ), 0, 0, 0] 8000) 46 = Except.ok chunks ∧
      ∀ c ∈ chunks, c.length ≤ 46 :=
  claim_C3 [(0 : ℚ), 0, 0, 0] 8000 46 (by norm_num) (by norm_num) (by norm_num)
    (by norm_num) (by rw [encodeWav_length]; norm_num)

/-- C3 counterexample: a 46-byte buffer split with budget 45 (which is
`> 44`, so the guard admits it) produces one 46-byte chunk, exceeding the
budget. -/
theorem claim_C3_counterexample :
    splitAudioBuffer (encodeWav [(0 : ℚ)] 8000) 45 = Except.ok [encodeWav [(0 : ℚ)] 8000]
    ∧ (encodeWav [(0 : ℚ)] 8000).length = 46 ∧ ¬ (46 ≤ 45) := by
  have hq0 : quantize 0 = 0 := by
    unfold quantize clampSample jsRound
    norm_num
  have hpe : pcmEncode [(0 : ℚ)] = [0, 0] := by
    simp only [pcmEncode, List.flatMap_cons, List.flatMap_nil, hq0, int16LE,
      List.append_nil]
    decide
  have hpf : pcm16ToFloat32 [0, 0] = [(0 : ℚ)] := by
    norm_num [pcm16ToFloat32, pcmInt16, toInt16]
  have hsplit := splitAudioBuffer_split_eq [(0 : ℚ)] 8000 45
    (by norm_num) (by norm_num) (by norm_num) (by norm_num)
    (by rw [encodeWav_length]; norm_num)
  rw [hpe,
    show ([0, 0] : List ℕ).length = 2 from rfl,
    show max 2 ((45 - 44) / 2 * 2) = 2 from
      max_eq_left (by norm_num),
    show sliceLoop 2 [0, 0] 2 = [[0, 0]] from by decide,
    List.map_cons, List.map_nil, hpf] at hsplit
  exact ⟨hsplit, by rw [encodeWav_length]; norm_num, by norm_num⟩

/-- C4 (amended).  `splitAudioBuffer(buf, maxBytes)` returns `[buf]`
unchanged whenever `buf.length ≤ maxBytes` **and** `maxBytes > 44`: the
budget guard is checked first, so for `maxBytes ≤ 44` the call throws even
when the buffer would fit (see the counterexample). -/
theorem claim_C4 (buf : List ℕ) (maxBytes : ℕ)
    (h44 : 44 < maxBytes) (hlen : buf.length ≤ maxBytes) :
    splitAudioBuffer buf maxBytes = Except.ok [buf] := by
  unfold splitAudioBuffer
  rw [if_neg (by omega), if_pos hlen]

/-- C4 witness: a three-byte buffer passes through unchanged. -/
theorem claim_C4_witness : splitAudioBuffer [7, 7, 7] 45 = Except.ok [[7, 7, 7]] :=
  claim_C4 [7, 7, 7] 45 (by norm_num) (by simp)

/-- C4 counterexample: the empty buffer fits in a budget of 0
(`length 0 ≤ 0`), yet the call throws the budget error instead of
returning `[buf]`, because `maxBytes ≤ 44` is rejected first. -/
theorem claim_C4_counterexample :
    ([] : List ℕ).length ≤ 0
    ∧ splitAudioBuffer ([] : List ℕ) 0 = Except.error "maxBytes 必须大于 44 字节" :=
  ⟨by simp, rfl⟩

/-! ## Claim C2: the `encodeWav`/`decodeWavPcm16` round trip -/

/-- Quantization error of one encode/decode round trip, for samples in
`[-1, 1]`: at most `3/65536 = 1.5/32768`.  Negative samples lose at most
half a step (`1/65536`); non-negative samples additionally lose up to
`s/32768` because the encoder scales them by 0x7fff while the decoder
divides by 0x8000. -/
theorem quantize_error (s : ℚ) (h1 : -1 ≤ s) (h2 : s ≤ 1) :
    |(quantize s : ℚ) / 32768 - s| ≤ 3 / 65536 := by
  have hclamp : clampSample s = s := by
    unfold clampSample
    rw [min_eq_right h2, max_eq_right h1]
  unfold quantize jsRound
  rw [hclamp]
  split
  case isTrue hneg =>
    have hub : (⌊s * 32768 + 1 / 2⌋ : ℚ) ≤ s * 32768 + 1 / 2 := Int.floor_le _
    have hlb : s * 32768 + 1 / 2 < ⌊s * 32768 + 1 / 2⌋ + 1 := Int.lt_floor_add_one _
    have hA : (⌊s * 32768 + 1 / 2⌋ : ℚ)
        = 32768 * ((⌊s * 32768 + 1 / 2⌋ : ℚ) / 32768) := by
      field_simp
    rw [abs_le]
    constructor <;> linarith
  case isFalse hpos =>
    push_neg at hpos
    have hub : (⌊s * 32767 + 1 / 2⌋ : ℚ) ≤ s * 32767 + 1 / 2 := Int.floor_le _
    have hlb : s * 32767 + 1 / 2 < ⌊s * 32767 + 1 / 2⌋ + 1 := Int.lt_floor_add_one _
    have hA : (⌊s * 32767 + 1 / 2⌋ : ℚ)
        = 32768 * ((⌊s * 32767 + 1 / 2⌋ : ℚ) / 32768) := by
      field_simp
    rw [abs_le]
    constructor <;> linarith

/-- C2 (amended).  Parsing the buffer produced by `encodeWav(S, sr)` and
converting the PCM back to floats recovers exactly `len(S)` samples and the
sample rate `sr`, and each recovered sample differs from the original by at
most `3/65536` (not `1/32768 = 2/65536`: the asymmetric scaling makes
positive samples overshoot that bound — see the counterexample). -/
theorem claim_C2 (samples : List ℚ) (sr : ℕ)
    (h1 : 0 < sr) (h2 : sr < 2 ^ 32) (h3 : samples.length * 2 < 2 ^ 32)
    (hrange : ∀ s ∈ samples, -1 ≤ s ∧ s ≤ 1) :
    ∃ info, parseWavPcm16 (encodeWav samples sr) = Except.ok info ∧
      info.sampleRate = sr ∧ info.numChannels = 1 ∧ info.bitsPerSample = 16 ∧
      (pcm16ToFloat32 info.pcmData).length = samples.length ∧
      ∀ i, i < samples.length →
        |(pcm16ToFloat32 info.pcmData).getD i 0 - samples.getD i 0| ≤ 3 / 65536 := by
  have hl : pcm16ToFloat32 (pcmEncode samples)
      = samples.map (fun s => (quantize s : ℚ) / 32768) := by
    rw [pcm16ToFloat32, pcmInt16_pcmEncode, List.map_map]
    rfl
  refine ⟨⟨sr, 1, 16, pcmEncode samples⟩, parseWavPcm16_encodeWav samples sr h1 h2 h3,
    rfl, rfl, rfl, ?_, ?_⟩
  · show (pcm16ToFloat32 (pcmEncode samples)).length = samples.length
    rw [hl, List.length_map]
  · intro i hi
    show |(pcm16ToFloat32 (pcmEncode samples)).getD i 0 - samples.getD i 0| ≤ 3 / 65536
    rw [hl, List.getD_eq_getElem _ _ (by simpa using hi), List.getD_eq_getElem _ _ hi,
      List.getElem_map]
    exact quantize_error _ (hrange _ (List.getElem_mem hi)).1
      (hrange _ (List.getElem_mem hi)).2

/-- C2 witness: the round trip at a concrete two-sample buffer. -/
theorem claim_C2_witness :
    ∃ info, parseWavPcm16 (encodeWav [(1 : ℚ) / 2, -1] 16000) = Except.ok info ∧
      info.sampleRate = 16000 ∧ info.numChannels = 1 ∧ info.bitsPerSample = 16 ∧
      (pcm16ToFloat32 info.pcmData).length = ([(1 : ℚ) / 2, -1]).length ∧
      ∀ i, i < ([(1 : ℚ) / 2, -1]).length →
        |(pcm16ToFloat32 info.pcmData).getD i 0 - ([(1 : ℚ) / 2, -1]).getD i 0|
          ≤ 3 / 65536 :=
  claim_C2 [(1 : ℚ) / 2, -1] 16000 (by norm_num) (by norm_num) (by norm_num)
    (by
      intro s hs
      rcases List.mem_cons.mp hs with rfl | hs2
      · norm_num
      rcases List.mem_cons.mp hs2 with rfl | hs3
      · norm_num
      · simp at hs3)

/-- C2 counterexample: for the float32-representable sample
`s = 16776959/16777216 ≈ 0.99998`, the recovered sample is `32766/32768`
and the error is `767/16777216 > 1/32768 = 512/16777216`: the claimed
`1/32768` bound fails. -/
theorem claim_C2_counterexample :
    (parseWavPcm16 (encodeWav [(16776959 : ℚ) / 16777216] 16000)).map
        (fun info => pcm16ToFloat32 info.pcmData)
      = Except.ok [(32766 : ℚ) / 32768]
    ∧ ¬ |(32766 : ℚ) / 32768 - 16776959 / 16777216| ≤ 1 / 32768 := by
  have hq : quantize ((16776959 : ℚ) / 16777216) = 32766 := by
    unfold quantize clampSample jsRound
    norm_num
  have hpe : pcmEncode [(16776959 : ℚ) / 16777216] = [254, 127] := by
    simp only [pcmEncode, List.flatMap_cons, List.flatMap_nil, hq, int16LE,
      List.append_nil]
    decide
  have hparse := parseWavPcm16_encodeWav [(16776959 : ℚ) / 16777216] 16000
    (by norm_num) (by norm_num) (by norm_num)
  constructor
  · rw [hparse]
    simp only [Except.map, hpe]
    rw [show pcm16ToFloat32 [254, 127] = [(32766 : ℚ) / 32768] from by
      norm_num [pcm16ToFloat32, pcmInt16, toInt16]]
  · rw [show |(32766 : ℚ) / 32768 - 16776959 / 16777216| = 767 / 16777216 from by
      rw [abs_of_neg (by norm_num)]
      norm_num]
    norm_num

/-! ## SummaryService (src/summary/SummaryService.ts)

Data model from `src/transcription/types.ts` and `src/summary/types.ts`.
Times and durations are rationals; `end` is a Lean keyword, so the segment
field is named `endTime`.  String lengths agree with JavaScript
`String.length` for all text used here (basic-plane characters).
Where the source reads the wall clock (`new Date().toISOString()`), the
model takes the produced string as an explicit `now` argument.
The progress callback (a fire-and-forget UI sink) is not modelled. -/

structure TranscriptionSegment where
  start : ℚ
  endTime : ℚ
  text : String
  deriving Repr, DecidableEq

structure TranscriptionResult where
  segments : List TranscriptionSegment
  fullText : String
  language : String
  duration : ℚ
  providerId : String
  createdAt : String
  deriving Repr, DecidableEq

structure SummaryContext where
  courseName : String
  date : String
  duration : String
  deriving Repr, DecidableEq

structure SummaryOptions where
  context : SummaryContext
  template : Option String
  deriving Repr, DecidableEq

structure SummaryRunMetadata where
  providerId : String
  model : String
  createdAt : String
  deriving Repr, DecidableEq

structure SummaryRunResult where
  summary : String
  metadata : SummaryRunMetadata
  deriving Repr, DecidableEq

/-- JavaScript `String.prototype.trim`: strip leading and trailing
whitespace.  (Implemented over the character list so that the kernel can
evaluate it; `String.trim` of the core library is extensionally the same
on this data but is defined by well-founded recursion.) -/
def jsTrim (s : String) : String :=
  String.mk (((s.data.dropWhile Char.isWhitespace).reverse.dropWhile
    Char.isWhitespace).reverse)

/-- `normalizeText`: trim (the `undefined` case of the source cannot arise
here because the model's fields are always strings). -/
def normalizeText (value : String) : String := jsTrim value

/-- `normalizeSegments`: drop segments whose trimmed text is empty, clamp
`start` to `max 0 start`, force `end ≥ start`, and trim the text.  The
`Number.isFinite` guards of the source cannot fire over `ℚ`. -/
def normalizeSegments (segments : List TranscriptionSegment) : List TranscriptionSegment :=
  (segments.filter (fun seg => ¬ normalizeText seg.text = "")).map
    (fun seg => ⟨max 0 seg.start, max seg.start seg.endTime, normalizeText seg.text⟩)

/-- The chunk record pushed by `flush` in `splitBySegments`. -/
def mkSegmentChunk (transcription : TranscriptionResult)
    (bucket : List TranscriptionSegment) : TranscriptionResult :=
  { segments := bucket,
    fullText := jsTrim (String.intercalate "\n" (bucket.map (fun seg => seg.text))),
    language := transcription.language,
    duration := max 0 ((bucket.getLastD ⟨0, 0, ""⟩).endTime - (bucket.headD ⟨0, 0, ""⟩).start),
    providerId := transcription.providerId,
    createdAt := transcription.createdAt }

/-- The segment loop of `splitBySegments`: greedily accumulate segments
into a bucket, counting `text.length + 16` per segment; flush before a
segment that would overflow a non-empty bucket, and flush the remainder at
the end. -/
def splitBySegmentsGo (transcription : TranscriptionResult) (maxChars : ℤ) :
    List TranscriptionSegment → List TranscriptionResult
      → List TranscriptionSegment → ℕ → List TranscriptionResult
  | [], chunks, bucket, _ =>
    chunks ++ (if bucket = [] then [] else [mkSegmentChunk transcription bucket])
  | seg :: rest, chunks, bucket, charCount =>
    if ¬ bucket = [] ∧ maxChars < ((charCount + (seg.text.length + 16) : ℕ) : ℤ) then
      splitBySegmentsGo transcription maxChars rest
        (chunks ++ [mkSegmentChunk transcription bucket]) [seg] (seg.text.length + 16)
    else
      splitBySegmentsGo transcription maxChars rest chunks
        (bucket ++ [seg]) (charCount + (seg.text.length + 16))

/-- `splitBySegments(transcription, segments, maxChars)`. -/
def splitBySegments (transcription : TranscriptionResult)
    (segments : List TranscriptionSegment) (maxChars : ℤ) : List TranscriptionResult :=
  splitBySegmentsGo transcription maxChars segments [] [] 0

/-- The `/\n{2,}/` split: a run of two or more newlines separates
paragraphs; fuel is the character count, and each step consumes at least
one character, so the fuel branch is unreachable. -/
def paraGo : ℕ → List Char → List Char → List (List Char)
  | _, [], acc => [acc.reverse]
  | 0, cs, acc => [acc.reverse ++ cs]
  | fuel + 1, '\n' :: '\n' :: rest, acc =>
    acc.reverse :: paraGo fuel (rest.dropWhile (fun c => c = '\n')) []
  | fuel + 1, c :: rest, acc => paraGo fuel rest (c :: acc)

/-- `text.split(/\n{2,}/)`. -/
def splitParagraphs (text : String) : List String :=
  (paraGo text.length text.data []).map (fun cs => String.mk cs)

/-- The chunk record built by `splitByFullText` and `forceSplitText` for a
plain-text piece; `createdAt` falls back to the wall clock (`now`). -/
def mkTextChunk (transcription : TranscriptionResult) (now : String)
    (chunkText : String) : TranscriptionResult :=
  { segments := [],
    fullText := chunkText,
    language := transcription.language,
    duration := transcription.duration,
    providerId := transcription.providerId,
    createdAt := if transcription.createdAt = "" then now else transcription.createdAt }

/-- The paragraph-merging loop of `splitByFullText`. -/
def mergeParasGo (maxChars : ℤ) : List String → List String → String → List String
  | [], chunks, current => if current = "" then chunks else chunks ++ [current]
  | p :: rest, chunks, current =>
    if current = "" then mergeParasGo maxChars rest chunks p
    else if ((current.length + p.length + 2 : ℕ) : ℤ) ≤ maxChars then
      mergeParasGo maxChars rest chunks (current ++ "\n\n" ++ p)
    else mergeParasGo maxChars rest (chunks ++ [current]) p

/-- The raw character windows of `forceSplitText` (`text.slice(i, i + maxChars)`
for `i = 0, maxChars, …`); fueled like `sliceLoop`.  The source loop would
not terminate for `maxChars ≤ 0`, which `resolveChunkCharLimit` (≥ 4000)
rules out. -/
def charWindows : ℕ → List Char → ℕ → List (List Char)
  | 0, _, _ => []
  | _, [], _ => []
  | fuel + 1, c :: rest, size => (c :: rest).take size :: charWindows fuel ((c :: rest).drop size) size

/-- `forceSplitText(transcription, text, maxChars)`: raw windows of exactly
`maxChars` characters, trimmed, empties skipped; falls back to the whole
transcription when nothing remains. -/
def forceSplitText (transcription : TranscriptionResult) (now : String)
    (text : String) (maxChars : ℤ) : List TranscriptionResult :=
  let parts := ((charWindows text.length text.data maxChars.toNat).map
    (fun w => jsTrim (String.mk w))).filter (fun p => ¬ p = "")
  let chunks := parts.map (mkTextChunk transcription now)
  if chunks = [] then [transcription] else chunks

/-- `splitByFullText(transcription, maxChars)`. -/
def splitByFullText (transcription : TranscriptionResult) (maxChars : ℤ)
    (now : String) : List TranscriptionResult :=
  let text := normalizeText transcription.fullText
  if text = "" then [transcription]
  else
    let paragraphs := ((splitParagraphs text).map (fun p => jsTrim p)).filter
      (fun p => ¬ p = "")
    if paragraphs.length ≤ 1 ∧ ((text.length : ℤ) ≤ maxChars) then [transcription]
    else
      let chunks := mergeParasGo maxChars
        (if 0 < paragraphs.length then paragraphs else [text]) [] ""
      if chunks.length = 1 ∧ maxChars < ((chunks.headD "").length : ℤ) then
        forceSplitText transcription now (chunks.headD "") maxChars
      else chunks.map (mkTextChunk transcription now)

/-- `SummaryService.resolveChunkCharLimit`: 12000 when the configured value
is missing or not a finite number (`none`), otherwise
`max(4000, floor(configured))` — note: no upper clamp. -/
def resolveChunkCharLimit (configured : Option ℚ) : ℤ :=
  match configured with
  | none => 12000
  | some q => max 4000 ⌊q⌋

/-- `SummaryService.splitTranscription`. -/
def splitTranscription (transcription : TranscriptionResult) (maxChars : ℤ)
    (now : String) : List TranscriptionResult :=
  let validSegments := normalizeSegments transcription.segments
  if 0 < validSegments.length then splitBySegments transcription validSegments maxChars
  else splitByFullText transcription maxChars now

/-- `SummaryService.shouldUseHierarchicalSummarization`. -/
def shouldUseHierarchicalSummarization (enableHierarchical : Bool)
    (configured : Option ℚ) (transcription : TranscriptionResult) : Bool :=
  if ¬ enableHierarchical then false
  else
    let fullText := normalizeText transcription.fullText
    if fullText = "" then false
    else decide (resolveChunkCharLimit configured < (fullText.length : ℤ))

/-- `buildChunkTemplate(index, total)`. -/
def buildChunkTemplate (index total : ℕ) : String :=
  "你正在处理课堂转写的第 " ++ toString index ++ "/" ++ toString total ++ " 段。\n"
    ++ "请输出“分段纪要”，用于后续全局合并。\n"
    ++ "输出必须使用 Markdown，包含：\n"
    ++ "1. 本段主题\n"
    ++ "2. 核心要点（3-5条）\n"
    ++ "3. 关键时间点（如有）\n"
    ++ "4. 本段疑问或易错点\n"
    ++ "不要尝试给出整节课的最终结论。"

/-- `buildMergeTemplate(customTemplate)`: the default merge prompt with its
four core sections when no custom template is supplied; otherwise a merge
instruction, the trimmed custom template, and a flexibility note — the
four core sections are not part of this branch. -/
def buildMergeTemplate (customTemplate : Option String) : String :=
  let baseTemplate := match customTemplate with
    | some t => jsTrim t
    | none => ""
  if baseTemplate = "" then
    "请将“分段纪要”合并为一份完整课堂纪要。\n"
      ++ "输出必须使用中文 Markdown，包含：\n"
      ++ "1. 核心要点\n"
      ++ "2. 详细内容（带时间戳）\n"
      ++ "3. 关键术语表\n"
      ++ "4. 复习建议\n"
      ++ "若分段信息冲突，请给出最稳妥的统一表述。"
  else
    "请将分段纪要合并为最终纪要，并尽量遵循以下模板约束：\n" ++ baseTemplate
      ++ "\n\n你可以在不违背事实的前提下调整结构，以保证可读性。"

/-- The options passed to the per-chunk summarize call. -/
def chunkOptions (ctx : SummaryContext) (index total : ℕ) : SummaryOptions :=
  ⟨ctx, some (buildChunkTemplate index total)⟩

/-- The options passed to the merge call. -/
def mergeOptions (opts : SummaryOptions) : SummaryOptions :=
  ⟨opts.context, some (buildMergeTemplate opts.template)⟩

/-- The synthetic transcript handed to the merge call: all labelled partial
summaries joined by blank lines. -/
def mergedTranscription (transcription : TranscriptionResult) (now : String)
    (partials : List String) : TranscriptionResult :=
  { segments := [],
    fullText := String.intercalate "\n\n" partials,
    language := transcription.language,
    duration := transcription.duration,
    providerId := transcription.providerId,
    createdAt := now }

/-- The sequential chunk loop of `summarizeHierarchically`: awaiting each
per-chunk provider call in order, labelling each result
`### 分段 i/N`, and aborting on the first failure.  A provider is a
function to `Except`: exceptions of the source propagate as `.error`. -/
def runChunksGo (provider : TranscriptionResult → SummaryOptions → Except String SummaryRunResult)
    (ctx : SummaryContext) (total : ℕ) :
    List TranscriptionResult → ℕ → Except String (List String)
  | [], _ => Except.ok []
  | chunk :: rest, i =>
    match provider chunk (chunkOptions ctx (i + 1) total) with
    | Except.error e => Except.error e
    | Except.ok chunkResult =>
      match runChunksGo provider ctx total rest (i + 1) with
      | Except.error e => Except.error e
      | Except.ok others =>
        Except.ok (("### 分段 " ++ toString (i + 1) ++ "/" ++ toString total ++ "\n"
          ++ jsTrim chunkResult.summary) :: others)

/-- `SummaryService.summarizeHierarchically`. -/
def summarizeHierarchically
    (provider : TranscriptionResult → SummaryOptions → Except String SummaryRunResult)
    (configured : Option ℚ) (now : String) (transcription : TranscriptionResult)
    (opts : SummaryOptions) : Except String SummaryRunResult :=
  let chunkLimit := resolveChunkCharLimit configured
  let chunks := splitTranscription transcription chunkLimit now
  if chunks.length ≤ 1 then provider transcription opts
  else
    match runChunksGo provider opts.context chunks.length chunks 0 with
    | Except.error e => Except.error e
    | Except.ok partialSummaries =>
      provider (mergedTranscription transcription now partialSummaries) (mergeOptions opts)

/-- `SummaryService.summarize`: validation gate, then hierarchical or
direct summarization. -/
def summarize
    (provider : TranscriptionResult → SummaryOptions → Except String SummaryRunResult)
    (validation : Bool × String) (enableHierarchical : Bool) (configured : Option ℚ)
    (now : String) (transcription : TranscriptionResult) (opts : SummaryOptions) :
    Except String SummaryRunResult :=
  if ¬ validation.1 then Except.error validation.2
  else if shouldUseHierarchicalSummarization enableHierarchical configured transcription then
    summarizeHierarchically provider configured now transcription opts
  else provider transcription opts

/-- A default transcription record, used only as the `getD` fallback when
indexing chunk lists. -/
def emptyTranscription : TranscriptionResult := ⟨[], "", "", 0, "", ""⟩

/-! ## Claim C6: all-or-nothing failure of hierarchical summarization -/

/-- If the provider succeeds on the chunks before position `j` and fails on
the `j`-th chunk, the sequential chunk loop aborts with exactly that
error. -/
theorem runChunksGo_first_error
    (provider : TranscriptionResult → SummaryOptions → Except String SummaryRunResult)
    (ctx : SummaryContext) (total : ℕ) :
    ∀ (chunks : List TranscriptionResult) (i j : ℕ) (e : String),
      j < chunks.length →
      (∀ m, m < j → ∃ r, provider (chunks.getD m emptyTranscription)
        (chunkOptions ctx (i + m + 1) total) = Except.ok r) →
      provider (chunks.getD j emptyTranscription) (chunkOptions ctx (i + j + 1) total)
        = Except.error e →
      runChunksGo provider ctx total chunks i = Except.error e := by
  intro chunks
  induction chunks with
  | nil =>
    intro i j e hj _ _
    simp at hj
  | cons c rest ih =>
    intro i j e hj hpre hfail
    cases j with
    | zero =>
      rw [show (c :: rest).getD 0 emptyTranscription = c from rfl,
        show i + 0 + 1 = i + 1 from by omega] at hfail
      simp only [runChunksGo, hfail]
    | succ j' =>
      obtain ⟨r, hr⟩ := hpre 0 (Nat.succ_pos j')
      rw [show (c :: rest).getD 0 emptyTranscription = c from rfl,
        show i + 0 + 1 = i + 1 from by omega] at hr
      rw [show (c :: rest).getD (j' + 1) emptyTranscription
          = rest.getD j' emptyTranscription from rfl,
        show i + (j' + 1) + 1 = (i + 1) + j' + 1 from by omega] at hfail
      have hrec := ih (i + 1) j' e (by simpa using hj)
        (fun m hm => by
          have h := hpre (m + 1) (by omega)
          rwa [show (c :: rest).getD (m + 1) emptyTranscription
              = rest.getD m emptyTranscription from rfl,
            show i + (m + 1) + 1 = (i + 1) + m + 1 from by omega] at h)
        hfail
      simp only [runChunksGo, hr, hrec]

/-- C6 (confirmed).  When hierarchical summarization actually splits the
transcript (≥ 2 chunks): (a) if the provider fails on the first failing
chunk call, the whole run fails with exactly that error; (b) if all chunk
calls succeed but the merge call fails, the whole run fails with the merge
error; (c) a successful run's result is exactly the merge call's result on
the synthetic merged transcript — never a partial chunk summary. -/
theorem claim_C6
    (provider : TranscriptionResult → SummaryOptions → Except String SummaryRunResult)
    (configured : Option ℚ) (now : String) (transcription : TranscriptionResult)
    (opts : SummaryOptions)
    (hmulti : 2 ≤ (splitTranscription transcription (resolveChunkCharLimit configured)
      now).length) :
    (∀ j e,
      j < (splitTranscription transcription (resolveChunkCharLimit configured) now).length →
      (∀ m, m < j → ∃ r,
        provider ((splitTranscription transcription (resolveChunkCharLimit configured)
            now).getD m emptyTranscription)
          (chunkOptions opts.context (m + 1)
            (splitTranscription transcription (resolveChunkCharLimit configured) now).length)
          = Except.ok r) →
      provider ((splitTranscription transcription (resolveChunkCharLimit configured)
          now).getD j emptyTranscription)
        (chunkOptions opts.context (j + 1)
          (splitTranscription transcription (resolveChunkCharLimit configured) now).length)
        = Except.error e →
      summarizeHierarchically provider configured now transcription opts = Except.error e)
    ∧ (∀ partialSummaries e,
      runChunksGo provider opts.context
          (splitTranscription transcription (resolveChunkCharLimit configured) now).length
          (splitTranscription transcription (resolveChunkCharLimit configured) now) 0
        = Except.ok partialSummaries →
      provider (mergedTranscription transcription now partialSummaries) (mergeOptions opts)
        = Except.error e →
      summarizeHierarchically provider configured now transcription opts = Except.error e)
    ∧ (∀ res,
      summarizeHierarchically provider configured now transcription opts = Except.ok res →
      ∃ partialSummaries,
        runChunksGo provider opts.context
            (splitTranscription transcription (resolveChunkCharLimit configured) now).length
            (splitTranscription transcription (resolveChunkCharLimit configured) now) 0
          = Except.ok partialSummaries ∧
        provider (mergedTranscription transcription now partialSummaries) (mergeOptions opts)
          = Except.ok res) := by
  have hred : summarizeHierarchically provider configured now transcription opts
      = match runChunksGo provider opts.context
          (splitTranscription transcription (resolveChunkCharLimit configured) now).length
          (splitTranscription transcription (resolveChunkCharLimit configured) now) 0 with
        | Except.error e => Except.error e
        | Except.ok partialSummaries =>
          provider (mergedTranscription transcription now partialSummaries)
            (mergeOptions opts) := by
    unfold summarizeHierarchically
    rw [if_neg (by omega)]
  refine ⟨?_, ?_, ?_⟩
  · intro j e hj hpre hfail
    rw [hred, runChunksGo_first_error provider opts.context _ _ 0 j e hj
      (fun m hm => by
        have h := hpre m hm
        rwa [show 0 + m + 1 = m + 1 from by omega])
      (by rwa [show 0 + j + 1 = j + 1 from by omega])]
  · intro partialSummaries e hok hfail
    rw [hred, hok]
    exact hfail
  · intro res hres
    rw [hred] at hres
    rcases hcase : runChunksGo provider opts.context
        (splitTranscription transcription (resolveChunkCharLimit configured) now).length
        (splitTranscription transcription (resolveChunkCharLimit configured) now) 0 with
      e | partialSummaries
    · rw [hcase] at hres
      exact absurd hres (by simp)
    · rw [hcase] at hres
      exact ⟨partialSummaries, rfl, hres⟩

/-- C6 witness inputs: 650 segments of 4 characters each, so the character
budget 12000 (sizes `4 + 16` per segment) forces two chunks; the provider
fails on every call. -/
def manySegmentTranscription : TranscriptionResult :=
  ⟨List.replicate 650 ⟨0, 1, "abcd"⟩, "x", "zh", 10, "p", "t"⟩

set_option maxRecDepth 20000 in
/-- C6 witness: with a provider that always fails, the hierarchical run on
a two-chunk transcript fails with the provider's error. -/
theorem claim_C6_witness :
    summarizeHierarchically (fun _ _ => Except.error "网络错误") none "now"
      manySegmentTranscription ⟨⟨"课程", "2026-10-11", "01:00:00"⟩, none⟩
      = Except.error "网络错误" := by
  have h := claim_C6 (fun _ _ => Except.error "网络错误") none "now"
    manySegmentTranscription ⟨⟨"课程", "2026-10-11", "01:00:00"⟩, none⟩ (by decide)
  exact h.1 0 "网络错误" (by decide) (fun m hm => absurd hm (Nat.not_lt_zero m)) rfl

/-! ## Claim C7: the custom template and the merge prompt -/

/-- Does the second character list start with the first? -/
def startsWithChars : List Char → List Char → Bool
  | [], _ => true
  | _ :: _, [] => false
  | a :: as, b :: bs => a == b && startsWithChars as bs

/-- Does the second character list contain the first as a contiguous run? -/
def containsChars (needle : List Char) : List Char → Bool
  | [] => startsWithChars needle []
  | b :: bs => startsWithChars needle (b :: bs) || containsChars needle bs

/-- Substring test (`String.includes`), via the character lists. -/
def containsSubstring (haystack needle : String) : Bool :=
  containsChars needle.data haystack.data

/-- Markers of the four core sections of the default merge prompt: key
points, detailed content with timestamps, glossary, review suggestions. -/
def mergeCoreSections : List String :=
  ["核心要点", "详细内容（带时间戳）", "关键术语表", "复习建议"]

/-- C7 (corrected).  A non-empty custom template is *not* appended to the
default merge prompt: `buildMergeTemplate` returns a prompt consisting of a
fixed merge instruction, the trimmed custom template, and a flexibility
note, and the four core sections (present in the no-template prompt) do
not appear in it unless the custom template itself contains them. -/
theorem claim_C7 :
    (∀ t : String, ¬ jsTrim t = "" →
      buildMergeTemplate (some t)
        = "请将分段纪要合并为最终纪要，并尽量遵循以下模板约束：\n" ++ jsTrim t
          ++ "\n\n你可以在不违背事实的前提下调整结构，以保证可读性。")
    ∧ (∀ sec ∈ mergeCoreSections, containsSubstring (buildMergeTemplate none) sec = true)
    ∧ containsSubstring (buildMergeTemplate (some "请用三句话总结")) "核心要点" = false := by
  refine ⟨?_, by decide, by decide⟩
  intro t ht
  simp only [buildMergeTemplate]
  rw [if_neg ht]

set_option maxRecDepth 4000 in
/-- C7 witness: the merge prompt for the custom template `请用三句话总结`. -/
theorem claim_C7_witness :
    buildMergeTemplate (some "请用三句话总结")
      = "请将分段纪要合并为最终纪要，并尽量遵循以下模板约束：\n请用三句话总结"
        ++ "\n\n你可以在不违背事实的前提下调整结构，以保证可读性。" := by
  rw [claim_C7.1 "请用三句话总结" (by decide)]
  decide

/-- C7 counterexample: with the non-empty custom template `请用三句话总结`
the merge pass runs on a prompt that does not contain the core section
`核心要点` (key points) — the custom template replaced the core sections
rather than being appended to them. -/
theorem claim_C7_counterexample :
    ¬ jsTrim "请用三句话总结" = ""
    ∧ containsSubstring (buildMergeTemplate (some "请用三句话总结")) "核心要点" = false
    ∧ containsSubstring (buildMergeTemplate none) "核心要点" = true :=
  ⟨by decide, by decide, by decide⟩

/-! ## Claim C9: the chunk character budget -/

/-- C9 (amended).  The effective chunk character budget is 12000 when the
configured value is missing or not a finite number, and never drops below
the 4000 floor; values in `[4000, 30000]` (the range the settings slider
can produce) stay within `[4000, 30000]`, but `resolveChunkCharLimit`
itself applies no upper clamp (see the counterexample). -/
theorem claim_C9 :
    resolveChunkCharLimit none = 12000
    ∧ (∀ configured, 4000 ≤ resolveChunkCharLimit configured)
    ∧ (∀ q : ℚ, 4000 ≤ q → q ≤ 30000 → resolveChunkCharLimit (some q) ≤ 30000) := by
  refine ⟨rfl, ?_, ?_⟩
  · intro configured
    cases configured with
    | none => norm_num [resolveChunkCharLimit]
    | some q => exact le_max_left 4000 ⌊q⌋
  · intro q h1 h2
    show max 4000 ⌊q⌋ ≤ 30000
    refine max_le (by norm_num) ?_
    calc ⌊q⌋ ≤ ⌊(30000 : ℚ)⌋ := Int.floor_le_floor h2
      _ = 30000 := by norm_num

/-- C9 witness: a configured value of 20000 stays within the bounds. -/
theorem claim_C9_witness :
    4000 ≤ resolveChunkCharLimit (some 20000)
    ∧ resolveChunkCharLimit (some 20000) ≤ 30000 :=
  ⟨claim_C9.2.1 (some 20000), claim_C9.2.2 20000 (by norm_num) (by norm_num)⟩

/-- C9 counterexample: a configured value of 50000 yields an effective
budget of 50000: the resolver never clamps to 30000 (only the settings
slider restricts the range). -/
theorem claim_C9_counterexample :
    resolveChunkCharLimit (some 50000) = 50000 ∧ ¬ ((50000 : ℤ) ≤ 30000) := by
  constructor
  · show max 4000 ⌊(50000 : ℚ)⌋ = 50000
    norm_num
  · norm_num

/-! ## The single-flight task maps of `LectureRecorderPlugin` (src/main.ts)

`transcribeAudioFile` and `summarizeAudioFile` run synchronously from the
map lookup to the map insertion (no `await` in between), so under
JavaScript's run-to-completion semantics each call is one atomic step on
the plugin state.  The state machine below models exactly those steps:

* a *call* step performs the guard (`!filePath`), the lookup, and — for a
  miss — creates the task (recorded in `startedTranscriptions` /
  `startedSummaries`, the invocation order of `runTranscriptionTask` /
  `runSummaryTask`) and inserts the pending entry; the returned `Option ℕ`
  is the identity of the promise the caller awaits (`none` for the empty
  path, which returns `null` immediately);
* a *settle* step is the creator's `finally` block, which runs when the
  task promise settles (fulfilled or rejected) and deletes the map entry.

Two callers holding the same task identity await the same promise and
therefore observe the identical settled outcome. -/

structure TaskMapState where
  transcribing : List (String × ℕ)
  summarizing : List (String × ℕ)
  nextTaskId : ℕ
  startedTranscriptions : List ℕ
  startedSummaries : List ℕ
  deriving Repr, DecidableEq

/-- `Map.get(filePath)`. -/
def lookupTask (entries : List (String × ℕ)) (filePath : String) : Option ℕ :=
  (entries.find? (fun entry => entry.1 == filePath)).map (fun entry => entry.2)

/-- One call to `transcribeAudioFile(filePath)`: empty paths return `null`
without touching the map; a pending entry is joined; otherwise
`runTranscriptionTask` is started and registered under the path. -/
def callTranscribe (s : TaskMapState) (filePath : String) : TaskMapState × Option ℕ :=
  if filePath = "" then (s, none)
  else
    match lookupTask s.transcribing filePath with
    | some taskId => (s, some taskId)
    | none =>
      ({ s with
          transcribing := (filePath, s.nextTaskId) :: s.transcribing,
          nextTaskId := s.nextTaskId + 1,
          startedTranscriptions := s.startedTranscriptions ++ [s.nextTaskId] },
        some s.nextTaskId)

/-- The creator's `finally { this.transcribingTasks.delete(filePath) }`. -/
def settleTranscribe (s : TaskMapState) (filePath : String) : TaskMapState :=
  { s with transcribing := s.transcribing.filter (fun entry => ¬ entry.1 = filePath) }

/-- One call to `summarizeAudioFile(filePath, …)`: same single-flight
pattern over the independent `summarizingTasks` map. -/
def callSummarize (s : TaskMapState) (filePath : String) : TaskMapState × Option ℕ :=
  if filePath = "" then (s, none)
  else
    match lookupTask s.summarizing filePath with
    | some taskId => (s, some taskId)
    | none =>
      ({ s with
          summarizing := (filePath, s.nextTaskId) :: s.summarizing,
          nextTaskId := s.nextTaskId + 1,
          startedSummaries := s.startedSummaries ++ [s.nextTaskId] },
        some s.nextTaskId)

/-- The creator's `finally { this.summarizingTasks.delete(filePath) }`. -/
def settleSummarize (s : TaskMapState) (filePath : String) : TaskMapState :=
  { s with summarizing := s.summarizing.filter (fun entry => ¬ entry.1 = filePath) }

theorem lookupTask_insert (entries : List (String × ℕ)) (filePath : String) (taskId : ℕ) :
    lookupTask ((filePath, taskId) :: entries) filePath = some taskId := by
  simp [lookupTask, List.find?]

theorem lookupTask_erase (entries : List (String × ℕ)) (filePath : String) :
    lookupTask (entries.filter (fun entry => ¬ entry.1 = filePath)) filePath = none := by
  induction entries with
  | nil => rfl
  | cons entry rest ih =>
    by_cases h : entry.1 = filePath
    · simp only [List.filter, h]
      simpa using ih
    · simpa [List.filter, lookupTask, List.find?, h] using ih

/-- C5 (confirmed).  Single-flight for both task maps.  For a non-empty
path that is fresh in the relevant map: the first call to
`transcribeAudioFile` (respectively `summarizeAudioFile`) starts exactly
one underlying task; a second call that overlaps it (no settle in between)
joins the very same task — so both callers await the same promise and
observe its one settled outcome — and changes nothing; settling removes
the pending entry, so a subsequent call starts a fresh, distinct task; and
the two maps are independent key spaces: the transcription steps leave
`summarizing` untouched and the summarization steps leave `transcribing`
untouched. -/
theorem claim_C5 (s : TaskMapState) (filePath : String)
    (hne : ¬ filePath = "") :
    (lookupTask s.transcribing filePath = none →
      (callTranscribe s filePath).2 = some s.nextTaskId
      ∧ ((callTranscribe s filePath).1).startedTranscriptions
          = s.startedTranscriptions ++ [s.nextTaskId]
      ∧ callTranscribe (callTranscribe s filePath).1 filePath
          = ((callTranscribe s filePath).1, some s.nextTaskId)
      ∧ lookupTask (settleTranscribe (callTranscribe s filePath).1 filePath).transcribing
          filePath = none
      ∧ (callTranscribe (settleTranscribe (callTranscribe s filePath).1 filePath)
          filePath).2 = some (s.nextTaskId + 1)
      ∧ ¬ s.nextTaskId + 1 = s.nextTaskId
      ∧ ((callTranscribe s filePath).1).summarizing = s.summarizing
      ∧ (settleTranscribe (callTranscribe s filePath).1 filePath).summarizing
          = s.summarizing)
    ∧ (lookupTask s.summarizing filePath = none →
      (callSummarize s filePath).2 = some s.nextTaskId
      ∧ ((callSummarize s filePath).1).startedSummaries
          = s.startedSummaries ++ [s.nextTaskId]
      ∧ callSummarize (callSummarize s filePath).1 filePath
          = ((callSummarize s filePath).1, some s.nextTaskId)
      ∧ lookupTask (settleSummarize (callSummarize s filePath).1 filePath).summarizing
          filePath = none
      ∧ (callSummarize (settleSummarize (callSummarize s filePath).1 filePath)
          filePath).2 = some (s.nextTaskId + 1)
      ∧ ¬ s.nextTaskId + 1 = s.nextTaskId
      ∧ ((callSummarize s filePath).1).transcribing = s.transcribing
      ∧ (settleSummarize (callSummarize s filePath).1 filePath).transcribing
          = s.transcribing) := by
  constructor
  · intro hfresh
    have hcall1 : callTranscribe s filePath
        = ({ s with
            transcribing := (filePath, s.nextTaskId) :: s.transcribing,
            nextTaskId := s.nextTaskId + 1,
            startedTranscriptions := s.startedTranscriptions ++ [s.nextTaskId] },
          some s.nextTaskId) := by
      unfold callTranscribe
      rw [if_neg hne, hfresh]
    have hcall2 : callTranscribe (callTranscribe s filePath).1 filePath
        = ((callTranscribe s filePath).1, some s.nextTaskId) := by
      rw [hcall1]
      unfold callTranscribe
      rw [if_neg hne, lookupTask_insert]
    have hsettle : lookupTask (settleTranscribe (callTranscribe s filePath).1
        filePath).transcribing filePath = none := lookupTask_erase _ _
    have hcall3 : (callTranscribe (settleTranscribe (callTranscribe s filePath).1 filePath)
        filePath).2 = some (s.nextTaskId + 1) := by
      have hnext : (settleTranscribe (callTranscribe s filePath).1 filePath).nextTaskId
          = s.nextTaskId + 1 := by
        rw [hcall1]
        rfl
      set s2 := settleTranscribe (callTranscribe s filePath).1 filePath with hs2
      unfold callTranscribe
      rw [if_neg hne, hsettle]
      simp [hnext]
    exact ⟨by rw [hcall1], by rw [hcall1], hcall2, hsettle, hcall3, by omega,
      by rw [hcall1], by rw [hcall1]; rfl⟩
  · intro hfresh
    have hcall1 : callSummarize s filePath
        = ({ s with
            summarizing := (filePath, s.nextTaskId) :: s.summarizing,
            nextTaskId := s.nextTaskId + 1,
            startedSummaries := s.startedSummaries ++ [s.nextTaskId] },
          some s.nextTaskId) := by
      unfold callSummarize
      rw [if_neg hne, hfresh]
    have hcall2 : callSummarize (callSummarize s filePath).1 filePath
        = ((callSummarize s filePath).1, some s.nextTaskId) := by
      rw [hcall1]
      unfold callSummarize
      rw [if_neg hne, lookupTask_insert]
    have hsettle : lookupTask (settleSummarize (callSummarize s filePath).1
        filePath).summarizing filePath = none := lookupTask_erase _ _
    have hcall3 : (callSummarize (settleSummarize (callSummarize s filePath).1 filePath)
        filePath).2 = some (s.nextTaskId + 1) := by
      have hnext : (settleSummarize (callSummarize s filePath).1 filePath).nextTaskId
          = s.nextTaskId + 1 := by
        rw [hcall1]
        rfl
      set s2 := settleSummarize (callSummarize s filePath).1 filePath with hs2
      unfold callSummarize
      rw [if_neg hne, hsettle]
      simp [hnext]
    exact ⟨by rw [hcall1], by rw [hcall1], hcall2, hsettle, hcall3, by omega,
      by rw [hcall1], by rw [hcall1]; rfl⟩

/-- C5 witness: the single-flight behaviour of both services at a concrete
state whose two maps hold distinct pending entries for other paths. -/
theorem claim_C5_witness :
    ((callTranscribe ⟨[("y", 7)], [("x", 9)], 3, [7], [9]⟩ "rec.wav").2 = some 3
    ∧ ((callTranscribe ⟨[("y", 7)], [("x", 9)], 3, [7], [9]⟩
        "rec.wav").1).startedTranscriptions = [7] ++ [3]
    ∧ callTranscribe (callTranscribe ⟨[("y", 7)], [("x", 9)], 3, [7], [9]⟩
        "rec.wav").1 "rec.wav"
        = ((callTranscribe ⟨[("y", 7)], [("x", 9)], 3, [7], [9]⟩ "rec.wav").1, some 3)
    ∧ lookupTask (settleTranscribe
        (callTranscribe ⟨[("y", 7)], [("x", 9)], 3, [7], [9]⟩ "rec.wav").1
        "rec.wav").transcribing "rec.wav" = none
    ∧ (callTranscribe (settleTranscribe
        (callTranscribe ⟨[("y", 7)], [("x", 9)], 3, [7], [9]⟩ "rec.wav").1 "rec.wav")
        "rec.wav").2 = some (3 + 1)
    ∧ ¬ 3 + 1 = 3
    ∧ ((callTranscribe ⟨[("y", 7)], [("x", 9)], 3, [7], [9]⟩
        "rec.wav").1).summarizing = [("x", 9)]
    ∧ (settleTranscribe (callTranscribe ⟨[("y", 7)], [("x", 9)], 3, [7], [9]⟩
        "rec.wav").1 "rec.wav").summarizing = [("x", 9)])
    ∧ ((callSummarize ⟨[("y", 7)], [("x", 9)], 3, [7], [9]⟩ "rec.wav").2 = some 3
    ∧ ((callSummarize ⟨[("y", 7)], [("x", 9)], 3, [7], [9]⟩
        "rec.wav").1).startedSummaries = [9] ++ [3]
    ∧ callSummarize (callSummarize ⟨[("y", 7)], [("x", 9)], 3, [7], [9]⟩
        "rec.wav").1 "rec.wav"
        = ((callSummarize ⟨[("y", 7)], [("x", 9)], 3, [7], [9]⟩ "rec.wav").1, some 3)
    ∧ lookupTask (settleSummarize
        (callSummarize ⟨[("y", 7)], [("x", 9)], 3, [7], [9]⟩ "rec.wav").1
        "rec.wav").summarizing "rec.wav" = none
    ∧ (callSummarize (settleSummarize
        (callSummarize ⟨[("y", 7)], [("x", 9)], 3, [7], [9]⟩ "rec.wav").1 "rec.wav")
        "rec.wav").2 = some (3 + 1)
    ∧ ¬ 3 + 1 = 3
    ∧ ((callSummarize ⟨[("y", 7)], [("x", 9)], 3, [7], [9]⟩
        "rec.wav").1).transcribing = [("y", 7)]
    ∧ (settleSummarize (callSummarize ⟨[("y", 7)], [("x", 9)], 3, [7], [9]⟩
        "rec.wav").1 "rec.wav").transcribing = [("y", 7)]) := by
  have h := claim_C5 ⟨[("y", 7)], [("x", 9)], 3, [7], [9]⟩ "rec.wav" (by decide)
  exact ⟨h.1 (by decide), h.2 (by decide)⟩

/-! ## Claim C10: the task runners never reject -/

/-- `TranscriptionRunResult` (src/transcription/TranscriptionService.ts). -/
structure TranscriptionRunResult where
  result : TranscriptionResult
  transcriptPath : String
  fromCache : Bool
  deriving Repr, DecidableEq

/-- `runTranscriptionTask`: await the transcription service; any thrown
error is caught (logged, notified) and `null` is returned — the task
promise always fulfils.  `svcResult` is the outcome of
`transcriptionService.transcribeFile`. -/
def runTranscriptionTask (svcResult : Except String TranscriptionRunResult) :
    Option TranscriptionRunResult :=
  match svcResult with
  | Except.ok runResult => some runResult
  | Except.error _ => none

/-- `runSummaryTask`: resolve a transcription, require non-blank text,
summarize, save the sidecar; any failure anywhere in the `try` block is
caught and `null` returned.  `resolvedTranscription` is the outcome of
`resolveTranscriptionForSummary`, `saveSidecar` that of
`saveSummarySidecar`. -/
def runSummaryTask (resolvedTranscription : Option TranscriptionResult)
    (summarizeCall : TranscriptionResult → Except String SummaryRunResult)
    (saveSidecar : Except String String) : Option String :=
  match resolvedTranscription with
  | none => none
  | some src =>
    if jsTrim src.fullText = "" then none
    else
      match summarizeCall src with
      | Except.error _ => none
      | Except.ok runResult =>
        match saveSidecar with
        | Except.error _ => none
        | Except.ok _ => some runResult.summary

/-- C10 (confirmed).  The task runners are total functions into `Option`
(the returned promise always fulfils): every failure of the underlying
service maps to `none` (`null`), success to `some`; and a caller that
joins a pending task receives the same task — hence the same `Option`
outcome, never a rejection. -/
theorem claim_C10 :
    (∀ e, runTranscriptionTask (Except.error e) = none)
    ∧ (∀ runResult, runTranscriptionTask (Except.ok runResult) = some runResult)
    ∧ (∀ summarizeCall saveSidecar, runSummaryTask none summarizeCall saveSidecar = none)
    ∧ (∀ src summarizeCall saveSidecar e, summarizeCall src = Except.error e →
        runSummaryTask (some src) summarizeCall saveSidecar = none)
    ∧ (∀ src summarizeCall e run, summarizeCall src = Except.ok run →
        runSummaryTask (some src) summarizeCall (Except.error e) = none)
    ∧ (∀ src summarizeCall sidecarPath run, ¬ jsTrim src.fullText = "" →
        summarizeCall src = Except.ok run →
        runSummaryTask (some src) summarizeCall (Except.ok sidecarPath)
          = some run.summary)
    ∧ (∀ s filePath taskId, ¬ filePath = "" →
        lookupTask s.transcribing filePath = some taskId →
        callTranscribe s filePath = (s, some taskId)) := by
  refine ⟨fun e => rfl, fun r => rfl, fun sc sv => rfl, ?_, ?_, ?_, ?_⟩
  · intro src sc sv e h
    simp only [runSummaryTask]
    rw [h]
    split <;> rfl
  · intro src sc e run h
    simp only [runSummaryTask]
    rw [h]
    split <;> rfl
  · intro src sc sidecarPath run hne h
    simp only [runSummaryTask]
    rw [if_neg hne, h]
  · intro s filePath taskId hne hpending
    unfold callTranscribe
    rw [if_neg hne, hpending]

/-- C10 witness: a failing service yields `null`, a succeeding chain yields
the summary text, and a joiner receives the pending task. -/
theorem claim_C10_witness :
    runTranscriptionTask (Except.error "网络超时") = none
    ∧ runSummaryTask (some ⟨[], "正文", "zh", 1, "p", "t"⟩)
        (fun _ => Except.ok ⟨"纪要", ⟨"openai-compat", "gpt", "t"⟩⟩)
        (Except.ok "a.wav.summary.md") = some "纪要"
    ∧ callTranscribe ⟨[("a.wav", 5)], [], 6, [5], []⟩ "a.wav"
        = (⟨[("a.wav", 5)], [], 6, [5], []⟩, some 5) :=
  ⟨claim_C10.1 "网络超时",
    claim_C10.2.2.2.2.2.1 ⟨[], "正文", "zh", 1, "p", "t"⟩
      (fun _ => Except.ok ⟨"纪要", ⟨"openai-compat", "gpt", "t"⟩⟩)
      "a.wav.summary.md" ⟨"纪要", ⟨"openai-compat", "gpt", "t"⟩⟩ (by decide) rfl,
    claim_C10.2.2.2.2.2.2 ⟨[("a.wav", 5)], [], 6, [5], []⟩ "a.wav" 5 (by decide) (by decide)⟩

/-! ## Claim C8: `batchProcessRecordings` (src/main.ts lines 620–689)

The per-item work of the `try` block (transcribe and/or summarize
according to the mode, with their emptiness checks) is abstracted as a
`step` oracle returning `Except`: a thrown error surfaces as `.error` with
the thrown message.  Progress reports are collected in order. -/

structure BatchProcessProgress where
  mode : String
  current : ℕ
  total : ℕ
  filePath : String
  message : String
  deriving Repr, DecidableEq

structure BatchProcessResult where
  mode : String
  total : ℕ
  succeeded : List String
  failed : List (String × String)
  deriving Repr, DecidableEq

/-- `Array.from(new Set(...))`: deduplication keeping first occurrences in
order (JavaScript `Set` preserves insertion order). -/
def dedupKeepFirst (seen : List String) : List String → List String
  | [] => []
  | p :: rest => if p ∈ seen then dedupKeepFirst seen rest else p :: dedupKeepFirst (p :: seen) rest

/-- The sequential item loop of `batchProcessRecordings`: report a start
progress entry, attempt the item, append to `succeeded` or `failed`,
report an end progress entry, and continue with the next item in either
case. -/
def batchGo (step : String → Except String Unit) (mode : String) (total : ℕ) :
    List String → ℕ → List String × List (String × String) × List BatchProcessProgress
  | [], _ => ([], [], [])
  | filePath :: rest, i =>
    let startEntry : BatchProcessProgress := ⟨mode, i + 1, total, filePath, "开始处理 " ++ filePath⟩
    match step filePath with
    | Except.ok _ =>
      let (succeeded, failed, log) := batchGo step mode total rest (i + 1)
      (filePath :: succeeded, failed,
        startEntry :: ⟨mode, i + 1, total, filePath, "处理成功"⟩ :: log)
    | Except.error e =>
      let (succeeded, failed, log) := batchGo step mode total rest (i + 1)
      (succeeded, (filePath, e) :: failed,
        startEntry :: ⟨mode, i + 1, total, filePath, "处理失败：" ++ e⟩ :: log)

/-- `batchProcessRecordings(filePaths, mode)`: filter falsy paths,
deduplicate, then process the queue strictly sequentially. -/
def batchProcessRecordings (step : String → Except String Unit) (mode : String)
    (filePaths : List String) : BatchProcessResult × List BatchProcessProgress :=
  let queue := dedupKeepFirst [] (filePaths.filter (fun p => ¬ p = ""))
  let (succeeded, failed, log) := batchGo step mode queue.length queue 0
  (⟨mode, queue.length, succeeded, failed⟩, log)

/-- The end-of-item progress message. -/
def stepMessage (step : String → Except String Unit) (filePath : String) : String :=
  match step filePath with
  | Except.ok _ => "处理成功"
  | Except.error e => "处理失败：" ++ e

theorem dedupKeepFirst_eq_self (filePaths : List String) :
    ∀ seen, (∀ p ∈ filePaths, p ∉ seen) → filePaths.Nodup →
      dedupKeepFirst seen filePaths = filePaths := by
  induction filePaths with
  | nil => intro seen _ _; rfl
  | cons p rest ih =>
    intro seen hdis hnodup
    rw [dedupKeepFirst, if_neg (hdis p (List.mem_cons_self p rest)),
      ih (p :: seen) ?_ (List.nodup_cons.mp hnodup).2]
    intro q hq
    rw [List.mem_cons]
    push_neg
    exact ⟨fun hqp => (List.nodup_cons.mp hnodup).1 (hqp ▸ hq),
      hdis q (List.mem_cons_of_mem p hq)⟩

theorem batchGo_spec (step : String → Except String Unit) (mode : String) (total : ℕ) :
    ∀ (queue : List String) (i : ℕ),
      batchGo step mode total queue i
        = (queue.filter (fun p => (step p).toOption.isSome),
            queue.filterMap (fun p => match step p with
              | Except.error e => some (p, e)
              | Except.ok _ => none),
            (queue.enumFrom i).flatMap (fun pr =>
              [⟨mode, pr.1 + 1, total, pr.2, "开始处理 " ++ pr.2⟩,
                ⟨mode, pr.1 + 1, total, pr.2, stepMessage step pr.2⟩])) := by
  intro queue
  induction queue with
  | nil => intro i; rfl
  | cons p rest ih =>
    intro i
    rcases hstep : step p with e | u
    · simp only [batchGo, hstep, ih (i + 1), List.filter_cons, List.filterMap_cons,
        List.enumFrom, List.flatMap_cons, hstep, Except.toOption, Option.isSome,
        stepMessage]
      simp [hstep, stepMessage]
    · simp only [batchGo, hstep, ih (i + 1), List.filter_cons, List.filterMap_cons,
        List.enumFrom, List.flatMap_cons, hstep, Except.toOption, Option.isSome,
        stepMessage]
      simp [hstep, stepMessage]

theorem batch_counts (step : String → Except String Unit) :
    ∀ queue : List String,
      (queue.filter (fun p => (step p).toOption.isSome)).length
        + (queue.filterMap (fun p => match step p with
            | Except.error e => some (p, e)
            | Except.ok _ => none)).length
        = queue.length := by
  intro queue
  induction queue with
  | nil => rfl
  | cons p rest ih =>
    rw [List.filter_cons, List.filterMap_cons]
    rcases hstep : step p with e | u <;>
      simp_all [Except.toOption] <;>
      omega

/-- C8 (confirmed).  For distinct non-empty file paths (the queue equals
the input list after the source's falsy filter and set-deduplication):
every item is processed in input order, successes are collected in
`succeeded` and failures as `(filePath, reason)` in `failed` — both in
input order, jointly exhaustive — the batch never aborts, and two progress
entries (start and outcome) are reported per item, in order. -/
theorem claim_C8 (step : String → Except String Unit) (mode : String)
    (filePaths : List String) (hnodup : filePaths.Nodup)
    (hne : ∀ p ∈ filePaths, ¬ p = "") :
    (batchProcessRecordings step mode filePaths).1.total = filePaths.length
    ∧ (batchProcessRecordings step mode filePaths).1.succeeded
        = filePaths.filter (fun p => (step p).toOption.isSome)
    ∧ (batchProcessRecordings step mode filePaths).1.failed
        = filePaths.filterMap (fun p => match step p with
            | Except.error e => some (p, e)
            | Except.ok _ => none)
    ∧ (batchProcessRecordings step mode filePaths).1.succeeded.length
        + (batchProcessRecordings step mode filePaths).1.failed.length
        = filePaths.length
    ∧ (batchProcessRecordings step mode filePaths).2
        = (filePaths.enumFrom 0).flatMap (fun pr =>
            [⟨mode, pr.1 + 1, filePaths.length, pr.2, "开始处理 " ++ pr.2⟩,
              ⟨mode, pr.1 + 1, filePaths.length, pr.2, stepMessage step pr.2⟩]) := by
  have hqueue : dedupKeepFirst [] (filePaths.filter (fun p => ¬ p = "")) = filePaths := by
    rw [List.filter_eq_self.mpr (fun p hp => by simpa using hne p hp),
      dedupKeepFirst_eq_self filePaths [] (fun p _ => List.not_mem_nil p) hnodup]
  have hrun : batchProcessRecordings step mode filePaths
      = (⟨mode, filePaths.length, filePaths.filter (fun p => (step p).toOption.isSome),
          filePaths.filterMap (fun p => match step p with
            | Except.error e => some (p, e)
            | Except.ok _ => none)⟩,
        (filePaths.enumFrom 0).flatMap (fun pr =>
          [⟨mode, pr.1 + 1, filePaths.length, pr.2, "开始处理 " ++ pr.2⟩,
            ⟨mode, pr.1 + 1, filePaths.length, pr.2, stepMessage step pr.2⟩])) := by
    simp only [batchProcessRecordings, hqueue, batchGo_spec]
  rw [hrun]
  exact ⟨rfl, rfl, rfl, batch_counts step filePaths, rfl⟩

/-- The per-item work used by the C8 witness: item `b` fails, the others
succeed. -/
def witnessBatchStep : String → Except String Unit :=
  fun filePath => if filePath = "b" then Except.error "转写未生成有效文本" else Except.ok ()

/-- C8 witness: for `[a, b, c]` with only `b` failing, the batch yields
`succeeded = [a, c]`, `failed = [(b, reason)]`, and six progress entries in
input order. -/
theorem claim_C8_witness :
    (batchProcessRecordings witnessBatchStep "both" ["a", "b", "c"]).1.succeeded = ["a", "c"]
    ∧ (batchProcessRecordings witnessBatchStep "both" ["a", "b", "c"]).1.failed
        = [("b", "转写未生成有效文本")]
    ∧ ((batchProcessRecordings witnessBatchStep "both" ["a", "b", "c"]).2).map
        (fun entry => (entry.current, entry.filePath))
        = [(1, "a"), (1, "a"), (2, "b"), (2, "b"), (3, "c"), (3, "c")] := by
  obtain ⟨h1, h2, h3, h4, h5⟩ := claim_C8 witnessBatchStep "both" ["a", "b", "c"]
    (by decide) (by decide)
  refine ⟨h2.trans (by decide), h3.trans (by decide), ?_⟩
  rw [h5]
  decide

end VoiceNotes
